import Mathlib

/-!
# Verification of the dx-styles incremental CSS compiler

A shallow embedding, in Lean 4, of the style-resolution and incremental
generation pipeline of the `styles` repository:

* `src/libs/src/data_manager.rs` — reference-counted per-file / global
  class-ID bookkeeping (`update_class_maps_ids`);
* `src/trash/libs/src/composites.rs` — the Composite registry
  (`hash_composite`, `get_or_create_full`, `register_grouping_raw`);
* `src/libs/src/engine.rs` — the style-resolution engine (`compute_css`,
  `generate_dynamic_css`, `generate_color_css`, `generate_animation_css`,
  `decode_encoded_css`, `generate_css_for_classes_batch`, …);
* `src/libs/src/generator.rs` — the incremental generator
  (`patch_css_file`, `normalize_generated_css`, full regeneration);
* `src/libs/src/parser.rs` — the grouping-grammar expander
  (`ClassNameVisitor::expand_grouping`).

Rust `u32`/`u64` arithmetic is modelled on `Nat` with explicit reduction
modulo `2^32` / `2^64` where wrapping can occur.  Rust `HashMap`s are
modelled as association lists with `insert`-replaces-existing-key
semantics; `HashSet`s of numeric IDs as `Finset Nat`.  Strings are ASCII
in every run the theorems exercise, so Rust byte indexing coincides with
`Char` list indexing.  Global registries (`static REGISTRY`, interner)
become explicit state threaded through the functions.  Performance
caches of the generator (LRU caches keyed by hashes) are modelled by
their cache-miss path, which is the defining computation.
-/

/-! ## Byte/string helpers -/

/-- Bytes of an ASCII string (each `Char` code point, which for the ASCII
inputs used throughout equals its UTF-8 byte). -/
def strBytes (s : String) : List Nat := s.data.map Char.toNat

/-- Little-endian read of up to 8 bytes into a natural number
(`read_int` of seahash). -/
def readIntLE (bs : List Nat) : Nat :=
  match bs with
  | [] => 0
  | b :: rest => b % 256 + 256 * readIntLE rest

/-- The 8 little-endian bytes of a 64-bit value (`u64::to_le_bytes`). -/
def u64leBytes (n : Nat) : List Nat :=
  [n % 256, n / 256 % 256, n / 256 ^ 2 % 256, n / 256 ^ 3 % 256,
   n / 256 ^ 4 % 256, n / 256 ^ 5 % 256, n / 256 ^ 6 % 256, n / 256 ^ 7 % 256]

/-- Lowercase hex digit. -/
def hexDigit (n : Nat) : Char :=
  if n < 10 then Char.ofNat (48 + n) else Char.ofNat (87 + n)

/-- Helper for `hexString`: most-significant-first digit accumulation. -/
def hexStringAux : Nat → Nat → List Char → List Char
  | 0, _, acc => acc
  | _ + 1, 0, acc => acc
  | fuel + 1, n + 1, acc =>
      hexStringAux fuel ((n + 1) / 16) (hexDigit ((n + 1) % 16) :: acc)

/-- Rust `format!("{:x}", v)` for a `u64` value: lowercase hex, no
leading zeroes, `"0"` for zero. -/
def hexString (n : Nat) : String :=
  if n = 0 then "0" else String.mk (hexStringAux 17 n [])

/-! ## seahash

Faithful model of the `seahash` crate (v4): the buffered `seahash::hash`
used by the engine on selector bytes, and — because the crate's streaming
`SeaHasher` is specified (and tested, in the crate) to produce the same
value as the buffered hash over the written byte sequence — also the
`SeaHasher` used by `hash_composite` via Rust's `Hash` derive encoding. -/

/-- seahash's `diffuse` permutation on 64-bit values. -/
def diffuse (x : Nat) : Nat :=
  let p : Nat := 0x6eed0e9da4d94a4f
  let m : Nat := 2 ^ 64
  let x1 := x * p % m
  let a := x1 / 2 ^ 32
  let b := x1 / 2 ^ 60
  let x2 := Nat.xor x1 (a / 2 ^ b)
  x2 * p % m

/-- Tail handling of `seahash::hash_seeded` on a buffer of fewer than 32
remaining bytes: xor the ≤8-byte groups into the lanes a, b, c, d in
order, diffusing each lane that received bytes. -/
def seahashTail (a b c d : Nat) (bs : List Nat) : Nat × Nat × Nat × Nat :=
  let g1 := bs.take 8
  let g2 := (bs.drop 8).take 8
  let g3 := (bs.drop 16).take 8
  let g4 := bs.drop 24
  let a' := if g1.length = 0 then a else diffuse (Nat.xor a (readIntLE g1))
  let b' := if g2.length = 0 then b else diffuse (Nat.xor b (readIntLE g2))
  let c' := if g3.length = 0 then c else diffuse (Nat.xor c (readIntLE g3))
  let d' := if g4.length = 0 then d else diffuse (Nat.xor d (readIntLE g4))
  (a', b', c', d')

/-- The 32-byte rounds of `seahash::hash_seeded`, recursing on the
remaining buffer (fuel-indexed structural recursion; one fuel unit per
32-byte chunk is ample at `fuel = bs.length + 1`). -/
def seahashRounds : Nat → Nat → Nat → Nat → Nat → List Nat → Nat × Nat × Nat × Nat
  | 0, a, b, c, d, bs => seahashTail a b c d bs
  | fuel + 1, a, b, c, d, bs =>
    if 32 ≤ bs.length then
      let x1 := readIntLE (bs.take 8)
      let x2 := readIntLE ((bs.drop 8).take 8)
      let x3 := readIntLE ((bs.drop 16).take 8)
      let x4 := readIntLE ((bs.drop 24).take 8)
      seahashRounds fuel (diffuse (Nat.xor a x1)) (diffuse (Nat.xor b x2))
        (diffuse (Nat.xor c x3)) (diffuse (Nat.xor d x4)) (bs.drop 32)
    else seahashTail a b c d bs

/-- `seahash::hash` of a byte buffer (default seeds of the crate). -/
def seahashBytes (bs : List Nat) : Nat :=
  let s := seahashRounds (bs.length + 1) 0x16f11fe89b0d677c 0xb480a793d8e6c86c
    0x6fe2e5aaf078ebc9 0x14f994a4c5259381 bs
  diffuse (Nat.xor (Nat.xor (Nat.xor (Nat.xor s.1 s.2.1) s.2.2.1) s.2.2.2) (bs.length % 2 ^ 64))

/-- `seahash::hash` of an ASCII string's bytes. -/
def seahashStr (s : String) : Nat := seahashBytes (strBytes s)

/-! ## Data Manager (`src/libs/src/data_manager.rs`)

`update_class_maps_ids` threads three pieces of state: `file_ids`
(`HashMap<PathBuf, HashSet<u32>>`, modelled as an association list keyed
by a numeric path identifier), `id_counts` (`HashMap<u32, u32>`,
modelled as a function to `Option Nat`, absent keys being `none`), and
`global_ids` (`HashSet<u32>` as a `Finset Nat`).  `u32` arithmetic wraps
modulo `2^32` (release semantics; the safety theorems show the wrap
points are unreachable from reachable states). -/

/-- `2^32`, the `u32` modulus. -/
def u32mod : Nat := 4294967296

structure DMState where
  fileIds : List (Nat × Finset Nat)
  idCounts : Nat → Option Nat
  globalIds : Finset Nat

/-- `file_ids.get(path).cloned().unwrap_or_default()` -/
def lookupFile (l : List (Nat × Finset Nat)) (p : Nat) : Option (Finset Nat) :=
  (l.find? (fun q => q.1 = p)).map (fun q => q.2)

/-- `HashMap::insert`: replace the entry if the key exists, else append. -/
def insertFile (l : List (Nat × Finset Nat)) (p : Nat) (s : Finset Nat) :
    List (Nat × Finset Nat) :=
  if l.any (fun q => q.1 = p) then
    l.map (fun q => if q.1 = p then (p, s) else q)
  else l ++ [(p, s)]

/-- Wrapping `u32` decrement (`*c -= 1` in release mode). -/
def u32sub1 (c : Nat) : Nat := (c + (u32mod - 1)) % u32mod

/-- Wrapping `u32` increment (`*count += 1` in release mode). -/
def u32add1 (c : Nat) : Nat := (c + 1) % u32mod

/-- Result record of `update_class_maps_ids`.  The Rust function returns
the global added/removed IDs as `Vec`s filled in `HashSet` iteration
order; since each ID is pushed at most once, the vectors are modelled by
the `Finset`s of their elements (the counts returned alongside are the
cardinalities). -/
structure UpdateResult where
  addedInFile : Nat
  removedInFile : Nat
  addedGlobalIds : Finset Nat
  removedGlobalIds : Finset Nat

/-- The IDs whose `remove` loop iteration pushes them onto
`removed_global_vec`: removed from this file, present in `id_counts`,
and decremented (with `u32` wrap) to zero. -/
def removedGlobalOf (counts : Nat → Option Nat) (removedInFile : Finset Nat) : Finset Nat :=
  removedInFile.filter (fun id =>
    (match counts id with
     | some c => u32sub1 c == 0
     | none => false) = true)

/-- The IDs whose `add` loop iteration pushes them onto
`added_global_vec`: added to this file with `*entry(id).or_insert(0)`
equal to zero before the increment. -/
def addedGlobalOf (counts : Nat → Option Nat) (addedInFile : Finset Nat) : Finset Nat :=
  addedInFile.filter (fun id =>
    (match counts id with
     | some c => c == 0
     | none => true) = true)

/-- `id_counts` after both loops.  The removal loop touches only IDs in
`removed_in_file` and the addition loop only IDs in `added_in_file`; the
two sets are disjoint and each ID occurs once per loop, so the per-ID
effects are order-independent and written pointwise. -/
def countsAfter (counts : Nat → Option Nat) (removedInFile addedInFile : Finset Nat) :
    Nat → Option Nat := fun id =>
  if id ∈ removedInFile then
    match counts id with
    | some c => some (u32sub1 c)
    | none => none
  else if id ∈ addedInFile then
    match counts id with
    | some c => some (u32add1 c)
    | none => some 1
  else counts id

/-- `update_class_maps_ids`. -/
def updateClassMapsIds (path : Nat) (newIds : Finset Nat) (s : DMState) :
    DMState × UpdateResult :=
  let oldIds := (lookupFile s.fileIds path).getD ∅
  let addedInFile := newIds \ oldIds
  let removedInFile := oldIds \ newIds
  let removedGlobal := removedGlobalOf s.idCounts removedInFile
  let addedGlobal := addedGlobalOf s.idCounts addedInFile
  let counts' := countsAfter s.idCounts removedInFile addedInFile
  let global' := (s.globalIds.filter (fun id => id ∉ removedGlobal)) ∪ addedGlobal
  (⟨insertFile s.fileIds path newIds, counts', global'⟩,
   ⟨addedInFile.card, removedInFile.card, addedGlobal, removedGlobal⟩)

/-- Number of stored file entries whose ID set contains `id`. -/
def refCount (l : List (Nat × Finset Nat)) (id : Nat) : Nat :=
  (l.filter (fun q => id ∈ q.2)).length

/-- The Data-Manager invariant: file keys are unique, each stored count
is exactly the file-reference count (an absent count means no file
references the ID), and the global set holds exactly the IDs with a
positive reference count.  It is established for every state reachable
from empty maps while fewer than `2^32` files are tracked (so the `u32`
cells never wrap). -/
def DMInv (s : DMState) : Prop :=
  (s.fileIds.map Prod.fst).Nodup ∧
  (∀ id, match s.idCounts id with
    | some c => c = refCount s.fileIds id
    | none => refCount s.fileIds id = 0) ∧
  (∀ id, id ∈ s.globalIds ↔ 0 < refCount s.fileIds id)

/-- States reachable from empty maps by `update_class_maps_ids` calls. -/
inductive DMReachable : DMState → Prop
  | empty : DMReachable ⟨[], fun _ => none, ∅⟩
  | step {s : DMState} (path : Nat) (newIds : Finset Nat) :
      DMReachable s → DMReachable (updateClassMapsIds path newIds s).1

/-! ## Composite registry (`src/trash/libs/src/composites.rs`)

The process-wide `static REGISTRY: RwLock<CompositeRegistry>` becomes an
explicit `Registry` value threaded through the operations. -/

structure Composite where
  base : List String
  child_rules : List (String × List String)
  state_rules : List (String × List String)
  data_attr_rules : List (String × List String)
  conditional_blocks : List (String × List String)
  extra_raw : List String
  animations : List String
deriving DecidableEq

/-- `Composite::default()`: every section empty. -/
def Composite.empty : Composite := ⟨[], [], [], [], [], [], []⟩

/-- Byte-lexicographic `≤` on strings (Rust `String: Ord`). -/
def bytesLe : List Nat → List Nat → Bool
  | [], _ => true
  | _ :: _, [] => false
  | a :: as, b :: bs => if a < b then true else if b < a then false else bytesLe as bs

def strLe (a b : String) : Bool := bytesLe (strBytes a) (strBytes b)

def insertSorted (x : String) : List String → List String
  | [] => [x]
  | y :: ys => if strLe x y then x :: y :: ys else y :: insertSorted x ys

/-- `Vec::sort` on strings.  Rust's sort is stable, but the order is
total and antisymmetric, so equal keys are identical strings and any
correct sorting algorithm produces the same list. -/
def sortStrings (l : List String) : List String := l.foldr insertSorted []

/-- Rust `Hash` encoding of a `Vec<String>` as fed to `SeaHasher`:
the length as `write_usize` (8 little-endian bytes), then for each
string its bytes followed by the `0xff` terminator that `str::hash`
appends. -/
def encodeVecStr (v : List String) : List Nat :=
  u64leBytes v.length ++ (v.map (fun s => strBytes s ++ [0xff])).flatten

/-- The canonicalized per-section view hashed by `hash_composite`:
sorted base tokens; sorted `"tag=>tok,…"` strings for child rules,
conditional blocks, state rules, and data-attribute rules (each rule's
token list sorted first); sorted animations; sorted raw extras — in the
order the Rust function hashes them. -/
def canonicalView (c : Composite) : List (List String) :=
  [sortStrings c.base,
   sortStrings (c.child_rules.map (fun p => p.1 ++ "=>" ++ String.intercalate "," (sortStrings p.2))),
   sortStrings (c.conditional_blocks.map (fun p => p.1 ++ "=>" ++ String.intercalate "," (sortStrings p.2))),
   sortStrings (c.state_rules.map (fun p => p.1 ++ "=>" ++ String.intercalate "," (sortStrings p.2))),
   sortStrings (c.data_attr_rules.map (fun p => p.1 ++ "=>" ++ String.intercalate "," (sortStrings p.2))),
   sortStrings c.animations,
   sortStrings c.extra_raw]

/-- `hash_composite`: SeaHasher over the `Hash` encodings of the seven
canonicalized sections, formatted `{:x}`. -/
def hash_composite (c : Composite) : String :=
  hexString (seahashBytes ((canonicalView c).map encodeVecStr).flatten)

structure Registry where
  map : List (String × String)
  data : List (String × Composite)

/-- The empty registry (process start). -/
def Registry.empty : Registry := ⟨[], []⟩

def lookupAssoc {α : Type} (l : List (String × α)) (k : String) : Option α :=
  (l.find? (fun q => q.1 = k)).map (fun q => q.2)

/-- `HashMap::insert`: replace the entry if the key exists, else append. -/
def insertAssoc {α : Type} (l : List (String × α)) (k : String) (v : α) :
    List (String × α) :=
  if l.any (fun q => q.1 = k) then l.map (fun q => if q.1 = k then (k, v) else q)
  else l ++ [(k, v)]

/-- `get_or_create_full`. -/
def getOrCreateFull (c : Composite) (reg : Registry) : String × Registry :=
  let hash := hash_composite c
  match lookupAssoc reg.map hash with
  | some existing => (existing, reg)
  | none =>
      -- format!("dx-class-{}", &hash[..8.min(hash.len())])
      let className := "dx-class-" ++ hash.take 8
      (className, ⟨insertAssoc reg.map hash className, insertAssoc reg.data className c⟩)

/-- `get_or_create`. -/
def getOrCreate (tokens : List String) (reg : Registry) : String × Registry :=
  getOrCreateFull { Composite.empty with base := tokens } reg

/-- `register_grouping_raw`: `data.entry(raw).or_insert(c)`. -/
def registerGroupingRaw (raw : String) (c : Composite) (reg : Registry) :
    String × Registry :=
  match lookupAssoc reg.data raw with
  | some _ => (raw, reg)
  | none => (raw, ⟨reg.map, insertAssoc reg.data raw c⟩)

/-- `composites::get`. -/
def compositesGet (name : String) (reg : Registry) : Option Composite :=
  lookupAssoc reg.data name

/-! ## String utilities

Char-list implementations of the Rust `str` operations the engine uses.
All inputs exercised by the theorems are ASCII, so `Char` positions
coincide with Rust byte positions. -/

/-- Rust `char::is_whitespace` restricted to ASCII. -/
def isWs (c : Char) : Bool := c.toNat = 32 || (9 ≤ c.toNat && c.toNat ≤ 13)

/-- Rust `u8::is_ascii_whitespace` (space, tab, newline, form feed, CR). -/
def isAsciiWs (c : Char) : Bool :=
  c.toNat = 32 || c.toNat = 9 || c.toNat = 10 || c.toNat = 12 || c.toNat = 13

def isAsciiDigit (c : Char) : Bool := 48 ≤ c.toNat && c.toNat ≤ 57

def isAsciiAlpha (c : Char) : Bool :=
  (65 ≤ c.toNat && c.toNat ≤ 90) || (97 ≤ c.toNat && c.toNat ≤ 122)

def isAsciiAlphanum (c : Char) : Bool := isAsciiAlpha c || isAsciiDigit c

def listStartsWith (s pat : List Char) : Bool :=
  match pat, s with
  | [], _ => true
  | _ :: _, [] => false
  | b :: bs, a :: as => a = b && listStartsWith as bs

/-- `str::starts_with`. -/
def sStarts (s pat : String) : Bool := listStartsWith s.data pat.data

/-- `str::ends_with`. -/
def sEnds (s pat : String) : Bool := listStartsWith s.data.reverse pat.data.reverse

def sDrop (s : String) (n : Nat) : String := String.mk (s.data.drop n)

def sTake (s : String) (n : Nat) : String := String.mk (s.data.take n)

/-- `str::strip_prefix` (by pattern length). -/
def stripPfx (s pat : String) : Option String :=
  if sStarts s pat then some (sDrop s pat.length) else none

/-- `str::strip_suffix`. -/
def stripSfx (s pat : String) : Option String :=
  if sEnds s pat then some (sTake s (s.length - pat.length)) else none

def findSubAux : List Char → List Char → Nat → Option Nat
  | s, pat, i =>
    match s with
    | [] => if pat.isEmpty then some i else none
    | _ :: rest =>
      if listStartsWith s pat then some i else findSubAux rest pat (i + 1)

/-- `str::find` for a substring pattern (first match position). -/
def sFind (s pat : String) : Option Nat := findSubAux s.data pat.data 0

/-- `str::contains` for a substring pattern. -/
def sContains (s pat : String) : Bool := (sFind s pat).isSome

/-- `str::find` for a char pattern. -/
def sFindChar (s : String) (c : Char) : Option Nat :=
  findSubAux s.data [c] 0

/-- `str::rfind` for a char pattern. -/
def sRFindChar (s : String) (c : Char) : Option Nat :=
  match findSubAux s.data.reverse [c] 0 with
  | some i => some (s.length - 1 - i)
  | none => none

def sTrimStart (s : String) : String := String.mk (s.data.dropWhile (fun c => isWs c))

def sTrimEnd (s : String) : String :=
  String.mk ((s.data.reverse.dropWhile (fun c => isWs c)).reverse)

/-- `str::trim`. -/
def sTrim (s : String) : String := sTrimEnd (sTrimStart s)

/-- `str::trim_end_matches(';')`. -/
def trimEndSemis (s : String) : String :=
  String.mk ((s.data.reverse.dropWhile (fun c => c = ';')).reverse)

/-- `str::split(c)`: pieces between occurrences of `c`, empties kept. -/
def splitOnChar (c : Char) : List Char → List (List Char)
  | [] => [[]]
  | a :: rest =>
    match splitOnChar c rest with
    | [] => if a = c then [[], []] else [[a]]
    | h :: t => if a = c then [] :: h :: t else (a :: h) :: t

def sSplitChar (s : String) (c : Char) : List String :=
  (splitOnChar c s.data).map String.mk

/-- `str::split_whitespace`: maximal non-whitespace runs. -/
def splitWsAux : List Char → List Char → List (List Char)
  | [], acc => if acc.isEmpty then [] else [acc.reverse]
  | c :: rest, acc =>
    if isWs c then
      if acc.isEmpty then splitWsAux rest [] else acc.reverse :: splitWsAux rest []
    else splitWsAux rest (c :: acc)

def sSplitWs (s : String) : List String := (splitWsAux s.data []).map String.mk

/-- `str::lines`: split on `'\n'`, a trailing newline yielding no final
empty element. -/
def sLines (s : String) : List String :=
  let parts := sSplitChar s '\n'
  match parts.reverse with
  | last :: front => if last.isEmpty then front.reverse else parts
  | [] => parts

/-- `str::replace(char, &str)` (replace every occurrence). -/
def sReplaceChar (s : String) (c : Char) (w : String) : String :=
  String.mk ((s.data.map (fun a => if a = c then w.data else [a])).flatten)

/-- Decimal digits of a natural number. -/
def decStringAux : Nat → Nat → List Char → List Char
  | 0, _, acc => acc
  | _ + 1, 0, acc => acc
  | fuel + 1, n + 1, acc =>
      decStringAux fuel ((n + 1) / 10) (Char.ofNat (48 + (n + 1) % 10) :: acc)

def decString (n : Nat) : String :=
  if n = 0 then "0" else String.mk (decStringAux 30 n [])

/-- Fractional decimal digits of `num/den` (`num < den`), stopping when
the remainder vanishes (or at the fuel bound, ample for every value the
theorems evaluate). -/
def fracDigits : Nat → Nat → Nat → List Char
  | 0, _, _ => []
  | _ + 1, 0, _ => []
  | fuel + 1, num, den =>
      let d := num * 10 / den
      Char.ofNat (48 + d) :: fracDigits fuel (num * 10 % den) den

/-- Exact rational model of `f32` values (unnormalized fraction;
`Rat`'s normalizing arithmetic is not kernel-reducible, and only exact
products/differences of short decimals arise).  The denominator is kept
positive. -/
structure Frac where
  num : Int
  den : Nat
deriving DecidableEq

def Frac.ofNat (n : Nat) : Frac := ⟨n, 1⟩

def Frac.mul (x y : Frac) : Frac := ⟨x.num * y.num, x.den * y.den⟩

def Frac.sub (x y : Frac) : Frac :=
  ⟨x.num * y.den - y.num * x.den, x.den * y.den⟩

def Frac.negOne : Frac := ⟨-1, 1⟩

def Frac.one : Frac := ⟨1, 1⟩

/-- Rust `{}` `Display` of an `f32`, modelled on exact rationals: the
shortest-round-trip float formatting prints the plain decimal expansion
for every value arising in the embedded computations (integers and
short decimal fractions that are exact or shortest-representative). -/
def fmtRat (q : Frac) : String :=
  let sign := if q.num < 0 then "-" else ""
  let n := q.num.natAbs
  let ip := n / q.den
  let fr := n % q.den
  sign ++ decString ip ++
    (if fr = 0 then "" else "." ++ String.mk (fracDigits 25 fr q.den))

/-- Rust `str::parse::<f32>` for the plain decimal strings the engine
feeds it (optional sign, digits, optional fraction); anything else is a
parse error (`none`). -/
def parseDecimal (s : String) : Option Frac :=
  let (neg, body) :=
    match s.data with
    | '-' :: rest => (true, rest)
    | '+' :: rest => (false, rest)
    | l => (false, l)
  let intPart := body.takeWhile (fun c => isAsciiDigit c)
  let rest := body.drop intPart.length
  let parsedigits : List Char → Option (List Nat) := fun l =>
    if l.all (fun c => isAsciiDigit c) then some (l.map (fun c => c.toNat - 48)) else none
  let toNatDigits : List Nat → Nat := fun l => l.foldl (fun a d => a * 10 + d) 0
  let signFactor : Int := if neg then -1 else 1
  match rest with
  | [] =>
    if intPart.isEmpty then none
    else
      match parsedigits intPart with
      | some ds => some ⟨signFactor * toNatDigits ds, 1⟩
      | none => none
  | '.' :: fracPart =>
    if intPart.isEmpty && fracPart.isEmpty then none
    else
      match parsedigits intPart, parsedigits fracPart with
      | some is, some fs =>
          some ⟨signFactor * (toNatDigits is * 10 ^ fracPart.length + toNatDigits fs),
            10 ^ fracPart.length⟩
      | _, _ => none
  | _ => none

/-- Rust `str::parse::<u32>`: non-empty all-digit string (values beyond
`u32::MAX` would overflow-error; not exercised). -/
def parseU32 (s : String) : Option Nat :=
  if s.data.isEmpty then none
  else if s.data.all (fun c => isAsciiDigit c) then
    some (s.data.foldl (fun a c => a * 10 + (c.toNat - 48)) 0)
  else none

/-! ## cssparser's `serialize_identifier`

Model of `cssparser::serialize_identifier` as used by the engine and
the interner (the manual fallback escape loops in the Rust sources are
dead code: the `fmt::Write` accumulator never errors). -/

/-- `hex_escape`: backslash, lowercase hex of the byte, then a space. -/
def hexEscapeChar (b : Nat) : String := "\\" ++ hexString b ++ " "

/-- `serialize_name`: identifier chars pass; NUL becomes U+FFFD;
controls and DEL hex-escape; anything else gets a backslash. -/
def serializeName (value : List Char) : String :=
  String.join (value.map (fun c =>
    if isAsciiAlphanum c || c = '-' || c = '_' then String.mk [c]
    else if 128 ≤ c.toNat then String.mk [c]
    else if c.toNat = 0 then "�"
    else if c.toNat < 32 || c.toNat = 127 then hexEscapeChar c.toNat
    else "\\" ++ String.mk [c]))

/-- `cssparser::serialize_identifier`. -/
def serializeIdentifier (value : String) : String :=
  if value.isEmpty then ""
  else if sStarts value "--" then "--" ++ serializeName (value.data.drop 2)
  else if value = "-" then "\\-"
  else
    let (lead, rest) :=
      if value.data.head? = some '-' then ("-", value.data.drop 1) else ("", value.data)
    match rest with
    | c :: rest2 =>
      if isAsciiDigit c then lead ++ hexEscapeChar c.toNat ++ serializeName rest2
      else lead ++ serializeName rest
    | [] => lead

/-! ## Style Engine (`src/libs/src/engine.rs`)

The engine's configuration (decoded once from the flatbuffers table
`.dx/styles.bin` at startup) is modelled as an explicit structure: the
`precompiled` map already merges the `styles` and `dynamics` sections
the way `StyleEngine::new` does, and `generators` carries the scale
generators that `generate_dynamic_css` re-reads from the table on each
call.  Multipliers are `f32` values modelled as exact rationals. -/

structure ScaleGenerator where
  pfx : String
  property : String
  multiplier : Frac
  unit : String

structure StyleEngine where
  precompiled : List (String × String)
  screens : List (String × String)
  states : List (String × String)
  containerQueries : List (String × String)
  colors : List (String × String)
  generators : List ScaleGenerator

/-- `generate_color_css`. -/
def generateColorCss (e : StyleEngine) (className : String) : Option String :=
  let bg :=
    match stripPfx className "bg-" with
    | some name => (lookupAssoc e.colors name).map (fun v => "background-color: " ++ v)
    | none => none
  match bg with
  | some v => some v
  | none =>
    match stripPfx className "text-" with
    | some name => (lookupAssoc e.colors name).map (fun v => "color: " ++ v)
    | none => none

/-- `generate_animation_css`: emit the `ANIM|animate|…` encoded stub. -/
def generateAnimationCss (fullClass : String) : Option String :=
  if sStarts fullClass "animate:" then
    let rest := sDrop fullClass 8
    let parts := sSplitChar rest ':'
    let duration := parts.headD "1s"
    let delay := (parts.drop 1).headD "0s"
    some ("ANIM|animate|" ++ duration ++ "|" ++ delay)
  else none

/-- The generator loop of `generate_dynamic_css`: first generator whose
`{prefix}-` heads the class; a number that fails to parse falls through
to the next generator (`continue`). -/
def generatorLoop (gens : List ScaleGenerator) (className : String) : Option String :=
  match gens with
  | [] => none
  | g :: rest =>
    if sStarts className (g.pfx ++ "-") then
      let valueStr := sDrop className (g.pfx.length + 1)
      let (vs, isNeg) :=
        match stripPfx valueStr "-" with
        | some stripped => (stripped, true)
        | none => (valueStr, false)
      match (if vs.isEmpty then some Frac.one else parseDecimal vs) with
      | some num =>
        let finalValue := (num.mul g.multiplier).mul (if isNeg then Frac.negOne else Frac.one)
        let cssValue :=
          if g.unit.isEmpty then fmtRat finalValue else fmtRat finalValue ++ g.unit
        some (g.property ++ ": " ++ cssValue)
      | none => generatorLoop rest className
    else generatorLoop rest className

/-- `generate_dynamic_css`. -/
def generateDynamicCss (e : StyleEngine) (className : String) : Option String :=
  let tr :=
    match stripPfx className "transition(" with
    | some arg =>
      match sFindChar arg ')' with
      | some endIdx =>
        let dur := sTake arg endIdx
        let duration := if dur.isEmpty then "150ms" else dur
        some ("transition-property: all; transition-duration: " ++ duration ++
          "; transition-timing-function: cubic-bezier(0.4,0,0.2,1)")
      | none => none
    | none => none
  match tr with
  | some v => some v
  | none => generatorLoop e.generators className

/-- The `while out.ends_with(";;") \x7b out.pop(); \x7d` loop of
`sanitize_declarations`. -/
def popDoubleSemis : Nat → List Char → List Char
  | 0, l => l
  | fuel + 1, l =>
      if listStartsWith l.reverse [';', ';'] then popDoubleSemis fuel l.dropLast else l

/-- `sanitize_declarations`. -/
def sanitizeDeclarations (input : String) : String :=
  let out := sTrim input
  let out := String.mk (popDoubleSemis (out.length + 1) out.data)
  match sFind out "--transform-scale-x, --transform-scale-y:" with
  | none => out
  | some pos =>
    match sFindChar (sDrop out pos) ':' with
    | none => out
    | some valStart =>
      let valStartAbs := pos + valStart + 1
      if valStartAbs < out.length then
        let value := sTrim (trimEndSemis ((sSplitChar (sDrop out valStartAbs) ';').headD ""))
        let replacement :=
          "--transform-scale-x: " ++ value ++ "; --transform-scale-y: " ++ value
        match sFindChar (sDrop out valStartAbs) ';' with
        | some endSeg => sTake out pos ++ replacement ++ sDrop out (valStartAbs + endSeg + 1)
        | none => sTake out pos ++ replacement
      else out

/-- The `seen` map of `build_block`: last index whose `find(':')`-prefix
(trimmed) is `name`, among the declaration parts. -/
def lastIndexFor (parts : List String) (name : String) : Option Nat :=
  parts.enum.foldl (fun acc ip =>
    match sFindChar ip.2 ':' with
    | some idx => if sTrim (sTake ip.2 idx) = name then some ip.1 else acc
    | none => acc) none

/-- `build_block`: selector plus de-duplicated (`last wins` per property
name) declaration lines. -/
def buildBlock (selector declarations : String) : String :=
  let declRaw := sTrim (trimEndSemis (sTrim declarations))
  let parts : List String :=
    if declRaw.isEmpty then []
    else if sContains declRaw ";" then sSplitChar declRaw ';'
    else [declRaw]
  let body := parts.enum.foldl (fun acc ip =>
    let pt := sTrim ip.2
    if pt.isEmpty then acc
    else
      let name := sTrim ((sSplitChar pt ':').headD "")
      if lastIndexFor parts name = some ip.1 then
        acc ++ "  " ++ trimEndSemis pt ++ ";\n"
      else acc) ""
  selector ++ " \x7b\n" ++ body ++ "\x7d\n"

/-- The per-piece resolution chain of `resolve_animation_tokens`
(precompiled table, `opacity-<n>`, colors, dynamic). -/
def resolveAnimPiece (e : StyleEngine) (piece : String) : Option String :=
  match lookupAssoc e.precompiled piece with
  | some css => some css
  | none =>
    let tail :=
      match generateColorCss e piece with
      | some c => some c
      | none => generateDynamicCss e piece
    match stripPfx piece "opacity-" with
    | some rest =>
      match parseU32 rest with
      | some num =>
        some ("opacity: " ++ (if 100 ≤ num then "1" else fmtRat ⟨num, 100⟩))
      | none => tail
    | none => tail

/-- `resolve_animation_tokens`: resolve `+`-separated pieces, then keep
only the last declaration for each property name, joined by `"; "`. -/
def resolveAnimationTokens (e : StyleEngine) (tokens : List String) : String :=
  let decls := tokens.foldl (fun acc t =>
    acc ++ ((sSplitChar t '+').filterMap (fun piece0 =>
      let piece := sTrim piece0
      if piece.isEmpty then none else resolveAnimPiece e piece))) []
  decls.enum.foldl (fun out ip =>
    match sFindChar ip.2 ':' with
    | some idx =>
      let name := sTrim (sTake ip.2 idx)
      if lastIndexFor decls name = some ip.1 then
        (if out.isEmpty then out else out ++ "; ") ++ trimEndSemis (sTrim ip.2)
      else out
    | none => out) ""

/-- `wrap_media_queries`: wrap the body in each collected query,
innermost-first over the reversed list, indenting non-empty lines. -/
def wrapMediaQueries (cssBody : String) (mediaQueries : List String) : String :=
  let wrapped := mediaQueries.reverse.foldl (fun body mq =>
    mq ++ " \x7b\n" ++
      ((sLines (sTrimEnd body)).foldl (fun acc line =>
        if line.isEmpty then acc else acc ++ "  " ++ line ++ "\n") "") ++ "\x7d\n")
    cssBody
  if sEnds wrapped "\n" then wrapped else wrapped ++ "\n"

/-! ### `decode_encoded_css` -/

structure PendingAnimation where
  duration : String
  delay : String
  fillMode : String
  fromStages : List String
  viaStages : List String
  toStages : List String
  hasMain : Bool

/-- `splitn(2, '|')`: the pair (before first `|`, remainder). -/
def split2Bar (s : String) : String × String :=
  match sFindChar s '|' with
  | some i => (sTake s i, sDrop s (i + 1))
  | none => (s, "")

/-- Stable insertion keeping earlier equal keys first
(`sort_by_key` is stable). -/
def insertFrame (x : Nat × String) : List (Nat × String) → List (Nat × String)
  | [] => [x]
  | y :: ys => if x.1 < y.1 then x :: y :: ys else y :: insertFrame x ys

def sortFrames (l : List (Nat × String)) : List (Nat × String) :=
  l.foldl (fun acc x => insertFrame x acc) []

/-- One line of the `decode_encoded_css` loop: threads the output text
and the pending animation. -/
def decodeLine (e : StyleEngine) (selector : String) (wrappers : List String)
    (st : String × Option PendingAnimation) (line : String) :
    String × Option PendingAnimation :=
  let (out, pending) := st
  if line.isEmpty then (out, pending)
  else
    match stripPfx line "BASE|" with
    | some rest =>
      let isResponsiveGroup := e.screens.any (fun bp => sStarts selector ("." ++ bp.1 ++ "\\("))
      if !isResponsiveGroup then
        let out1 :=
          if wrappers.isEmpty then out ++ buildBlock selector rest
          else
            let o := wrappers.foldl (fun acc w =>
              acc ++ buildBlock (sReplaceChar w '&' selector) rest ++ "\n") out
            if sEnds o "\n" then sTake o (o.length - 1) else o
        (out1 ++ "\n", pending)
      else (out, pending)
    | none =>
    match stripPfx line "STATE|" with
    | some rest =>
      let (state, decls) := split2Bar rest
      let out1 :=
        if state = "dark" then out ++ buildBlock (".dark " ++ selector) decls
        else if state = "light" then
          out ++ buildBlock (":root " ++ selector) decls ++ "\n"
            ++ buildBlock (".light " ++ selector) decls
        else out ++ buildBlock (selector ++ ":" ++ state) decls
      (out1 ++ "\n", pending)
    | none =>
    match stripPfx line "CHILD|" with
    | some rest =>
      let (child, decls) := split2Bar rest
      (out ++ buildBlock (selector ++ " > " ++ child) decls ++ "\n", pending)
    | none =>
    match stripPfx line "DATA|" with
    | some rest =>
      let (dataAttr, decls) := split2Bar rest
      (out ++ buildBlock (selector ++ "[data-" ++ dataAttr ++ "]") decls ++ "\n", pending)
    | none =>
    match stripPfx line "COND|" with
    | some rest =>
      let (cond, decls) := split2Bar rest
      match stripPfx cond "@container>" with
      | some val =>
        let inner := (sLines (buildBlock selector decls)).foldl (fun acc l =>
          acc ++ "  " ++ l ++ "\n") ""
        (out ++ "@container (min-width: " ++ val ++ ") \x7b\n" ++ inner ++ "\x7d\n", pending)
      | none =>
      match stripPfx cond "screen:" with
      | some bp =>
        match lookupAssoc e.screens bp with
        | some v =>
          let inner := (sLines (buildBlock selector decls)).foldl (fun acc l =>
            acc ++ "  " ++ l ++ "\n") ""
          (out ++ "@media (min-width: " ++ v ++ ") \x7b\n" ++ inner ++ "\x7d\n", pending)
        | none => (out, pending)
      | none =>
      match stripPfx cond "self:child-count>" with
      | some rest2 =>
        match parseU32 rest2 with
        | some threshold =>
          if 0 < threshold then
            (out ++ buildBlock (selector ++ ":has(> :nth-last-child(n+"
              ++ decString threshold ++ "):first-child)") decls ++ "\n", pending)
          else (out ++ buildBlock selector decls ++ "\n", pending)
        | none => (out, pending)
      | none => (out, pending)
    | none =>
    match stripPfx line "ANIM|" with
    | some rest =>
      let parts := sSplitChar rest '|'
      match parts.head? with
      | none => (out, pending)
      | some kind =>
        if kind = "animate" then
          let durationVal := (parts.drop 1).headD "1s"
          let delayVal := (parts.drop 2).headD "0s"
          let pa :=
            match pending with
            | none => PendingAnimation.mk durationVal delayVal "" [] [] [] true
            | some pa =>
              { pa with duration := durationVal, delay := delayVal, hasMain := true }
          (out, some pa)
        else if kind = "fill" then
          match (parts.drop 1).head? with
          | some mode =>
            let pa :=
              match pending with
              | none => PendingAnimation.mk "1s" "0s" mode [] [] [] false
              | some pa => { pa with fillMode := mode }
            (out, some pa)
          | none => (out, pending)
        else if kind = "from" || kind = "to" || kind = "via" then
          match (parts.drop 1).head? with
          | some tokens =>
            let pa0 :=
              match pending with
              | none => PendingAnimation.mk "1s" "0s" "" [] [] [] false
              | some pa => pa
            let pa :=
              if kind = "from" then { pa0 with fromStages := pa0.fromStages ++ [tokens] }
              else if kind = "to" then { pa0 with toStages := pa0.toStages ++ [tokens] }
              else { pa0 with viaStages := pa0.viaStages ++ [tokens] }
            (out, some pa)
          | none => (out, pending)
        else (out, pending)
    | none =>
    match stripPfx line "RAW|" with
    | some raw =>
      (out ++ raw ++ (if sEnds raw "\n" then "" else "\n"), pending)
    | none => (out, pending)

/-- The keyframe percentage of the `i`-th of `count` `via` stages:
`((i+1) as f32 / (count+1) as f32 * 100.0) as u32` (exact truncation;
the `f32` round-off never crosses an integer for the small stage counts
involved). -/
def viaPct (i count : Nat) : Nat := (i + 1) * 100 / (count + 1)

/-- Emission of the accumulated `PendingAnimation` at the end of
`decode_encoded_css`. -/
def emitPendingAnimation (e : StyleEngine) (selector : String) (out : String)
    (pa : PendingAnimation) : String :=
  if !pa.hasMain then
    if sEnds out "\n" then sTake out (out.length - 1) else out
  else
    let baseSelector :=
      match sFind selector "\\ " with
      | some i => sTake selector i
      | none => selector
    let hash := hexString (seahashStr baseSelector)
    let frames :=
      (if pa.fromStages.isEmpty then [] else [(0, resolveAnimationTokens e pa.fromStages)])
      ++ (if pa.toStages.isEmpty then [] else [(100, resolveAnimationTokens e pa.toStages)])
      ++ pa.viaStages.enum.map (fun iv =>
          (viaPct iv.1 pa.viaStages.length, resolveAnimationTokens e [iv.2]))
    let frames := sortFrames frames
    let kfBody := frames.foldl (fun acc f =>
      let dtrim := sTrim f.2
      if dtrim.isEmpty then acc
      else
        let line := if sEnds dtrim ";" then dtrim else dtrim ++ ";"
        acc ++ "  " ++ decString f.1 ++ "% \x7b " ++ line ++ " \x7d\n") ""
    let out :=
      if !kfBody.isEmpty then
        let out := out ++ "@keyframes dx-animation-" ++ hash ++ " \x7b\n" ++ kfBody
          ++ "\x7d\n\n"
        let partsList := [pa.duration]
          ++ (if pa.delay ≠ "0s" then [pa.delay] else [])
          ++ (if !pa.fillMode.isEmpty then [pa.fillMode] else [])
          ++ ["dx-animation-" ++ hash]
        let filtered := (partsList.foldl (fun (acc : List String × Bool) p =>
          if sStarts p "from(" || sStarts p "to(" || sStarts p "via(" then acc
          else if p = "forwards" then
            if acc.2 then acc else (acc.1 ++ [p], true)
          else (acc.1 ++ [p], acc.2)) ([], false)).1
        let value := String.intercalate " " filtered
        out ++ buildBlock baseSelector ("animation: " ++ value)
      else out
    if sEnds out "\n" then sTake out (out.length - 1) else out

/-- `decode_encoded_css`. -/
def decodeEncodedCss (e : StyleEngine) (css selector : String)
    (wrappers : List String) : String :=
  let isEncoded := sContains css "BASE|" || sContains css "STATE|"
    || sContains css "CHILD|" || sContains css "COND|" || sContains css "DATA|"
    || sContains css "RAW|" || sContains css "ANIM|"
  if !isEncoded then
    if wrappers.isEmpty then buildBlock selector css
    else
      let o := wrappers.foldl (fun acc w =>
        acc ++ buildBlock (sReplaceChar w '&' selector) css ++ "\n") ""
      if sEnds o "\n" then sTake o (o.length - 1) else o
  else
    let lines := if sContains css "\n" then sLines css else [css]
    let (out, pending) := lines.foldl (decodeLine e selector wrappers) ("", none)
    match pending with
    | some pa => emitPendingAnimation e selector out pa
    | none => if sEnds out "\n" then sTake out (out.length - 1) else out

/-! ### `expand_composite` -/

/-- Rust `format!("{:.1}", x)` (one fractional digit, nearest).  The
engine computes the mesh geometry in `f32`; it is modelled here through
Lean's `Float`, adequate for a branch no theorem evaluates. -/
def fmtFloat1 (x : Float) : String :=
  let neg := x < 0.0
  let ax := if neg then -x else x
  let t := (ax * 10.0 + 0.5).toUInt64.toNat
  (if neg then "-" else "") ++ decString (t / 10) ++ "." ++ decString (t % 10)

/-- Rust `format!("{:.0}", x)` (no fractional digits, nearest). -/
def fmtFloat0 (x : Float) : String :=
  let neg := x < 0.0
  let ax := if neg then -x else x
  let t := (ax + 0.5).toUInt64.toNat
  (if neg then "-" else "") ++ decString t

/-- One golden-angle radial-gradient layer of the `gradient:mesh:`
branch (engine.rs lines 508–525). -/
def meshLayer (n : Nat) (iv : Nat × String) : String :=
  let phi : Float := 3.14159265358979323846 * (3.0 - Float.sqrt 5.0)
  let iF : Float := Float.ofNat iv.1 + 0.5
  let r := iF / Float.ofNat n
  let theta := iF * phi
  let x := 50.0 + r * 40.0 * Float.cos theta
  let y := 50.0 + r * 40.0 * Float.sin theta
  let sz := 120.0 - r * 40.0
  "radial-gradient(circle at " ++ fmtFloat1 x ++ "% " ++ fmtFloat1 y ++ "%, "
    ++ sTrim iv.2 ++ " " ++ fmtFloat0 (if sz < 25.0 then 25.0 else sz) ++ "%)"

/-- `lookup_bp` of the `fluid:` branch: an all-digit key parses
directly, otherwise the screens table value must end in `px`. -/
def fluidLookupBp (e : StyleEngine) (key : String) : Option Frac :=
  if !key.isEmpty && key.data.all (fun c => isAsciiDigit c) then parseDecimal key
  else
    match lookupAssoc e.screens key with
    | some v =>
      match stripSfx v "px" with
      | some px => parseDecimal px
      | none => none
    | none => none

/-- `parse_val` of the `fluid:` branch: leading digits/dots. -/
def fluidParseVal (val : String) : Option Frac :=
  parseDecimal (String.mk (val.data.takeWhile (fun c => isAsciiDigit c || c = '.')))

/-- The `fluid:<prop>:<min>:<minBp>:<max>:<maxBp>` base rule. -/
def fluidRule (e : StyleEngine) (rest : String) : Option String :=
  let parts := sSplitChar rest ':'
  if 5 ≤ parts.length then
    let prop := parts.headD ""
    let minV := (parts.drop 1).headD ""
    let minBpKey := (parts.drop 2).headD ""
    let maxV := (parts.drop 3).headD ""
    let maxBpKey := (parts.drop 4).headD ""
    let formula :=
      match fluidLookupBp e minBpKey, fluidLookupBp e maxBpKey with
      | some minBp, some maxBp =>
        match fluidParseVal minV, fluidParseVal maxV with
        | some minNum, some maxNum =>
          some (prop ++ ": clamp(" ++ minV ++ ", calc(" ++ minV ++ " + "
            ++ fmtRat (maxNum.sub minNum) ++ " * (100vw - " ++ fmtRat minBp
            ++ "px) / (" ++ fmtRat maxBp ++ " - " ++ fmtRat minBp ++ ")), "
            ++ maxV ++ ")")
        | _, _ => none
      | _, _ => none
    match formula with
    | some f => some f
    | none => some (prop ++ ": clamp(" ++ minV ++ ", " ++ minV ++ ", " ++ maxV ++ ")")
  else none

/-- The `motion:` base rules: a content-hashed keyframe preset.
(The Rust slices `&hash[..6]`, which would panic on a sub-6-digit hex
string; `sTake` is the total counterpart.) -/
def motionRules (rest : String) : List String :=
  let hash := hexString (seahashStr rest)
  let kfName := "dx-motion-keyframe-" ++ sTake hash 6
  let keyframes := "@keyframes " ++ kfName
    ++ " \x7b\n  0% \x7b transform: translateY(0) scale(1); \x7d\n  60% \x7b transform: translateY(-6px) scale(1.04); \x7d\n  80% \x7b transform: translateY(2px) scale(0.98); \x7d\n  100% \x7b transform: translateY(0) scale(1); \x7d\n\x7d\n"
  ["animation: " ++ kfName ++ " 600ms cubic-bezier(0.34,1.56,0.64,1)", keyframes]

/-- The `gradient:mesh:` base rules. -/
def meshRules (rest : String) : List String :=
  let colors := (sSplitChar rest '+').filter (fun c => !(sTrim c).isEmpty)
  if 2 ≤ colors.length then
    let layers := colors.enum.map (meshLayer colors.length)
    ["background-image: " ++ String.intercalate ", " layers,
     "background-size: cover",
     "background-blend-mode: screen, lighten"]
  else []

/-- The generic tail of the `resolve_tokens` closure: precompiled,
color, dynamic, then the animation stub (whose `ANIM|` results go to
the animation lines). -/
def resolveCompTokenTail (e : StyleEngine) (t : String)
    (acc : List String × List String) : List String × List String :=
  match lookupAssoc e.precompiled t with
  | some rule => (acc.1 ++ [rule], acc.2)
  | none =>
    match generateColorCss e t with
    | some c => (acc.1 ++ [c], acc.2)
    | none =>
      match generateDynamicCss e t with
      | some d => (acc.1 ++ [d], acc.2)
      | none =>
        match generateAnimationCss t with
        | some a =>
          if sStarts a "ANIM|" then (acc.1, acc.2 ++ [a]) else (acc.1 ++ [a], acc.2)
        | none => acc

/-- The `resolve_tokens` closure of `expand_composite`: returns the base
declaration rules and the encoded animation lines. -/
def resolveCompTokens (e : StyleEngine) (tokens : List String) :
    List String × List String :=
  tokens.foldl (fun acc t =>
    match stripPfx t "animfill:" with
    | some rest => (acc.1, acc.2 ++ ["ANIM|fill|" ++ rest])
    | none =>
      match stripPfx t "fluid:" with
      | some rest =>
        match fluidRule e rest with
        | some rule => (acc.1 ++ [rule], acc.2)
        | none => resolveCompTokenTail e t acc
      | none =>
        match stripPfx t "motion:" with
        | some rest => (acc.1 ++ motionRules rest, acc.2)
        | none =>
          match stripPfx t "gradient:mesh:" with
          | some rest => (acc.1 ++ meshRules rest, acc.2)
          | none => resolveCompTokenTail e t acc) ([], [])

/-- One tagged section list of `expand_composite`: the tag line when the
joined declarations are non-empty, then that group's animation lines. -/
def compSection (e : StyleEngine) (tag : String) (rules : List (String × List String)) :
    List String :=
  rules.foldl (fun acc kv =>
    let (declVec, animLines) := resolveCompTokens e kv.2
    let decls := String.intercalate "; " declVec
    acc ++ (if decls.isEmpty then [] else [tag ++ "|" ++ kv.1 ++ "|" ++ decls])
      ++ animLines) []

/-- `expand_composite`.  (The Rust `dx-class-` re-lookup branch repeats
the same registry `get` and is semantically the plain lookup.) -/
def expandComposite (e : StyleEngine) (reg : Registry) (className : String) :
    Option String :=
  match compositesGet className reg with
  | none => none
  | some comp =>
    let (baseRules, baseAnimLines) := resolveCompTokens e comp.base
    let baseJoin := String.intercalate "; " baseRules
    let sections : List String :=
      (if baseJoin.isEmpty then [] else ["BASE|" ++ baseJoin])
      ++ compSection e "CHILD" comp.child_rules
      ++ compSection e "STATE" comp.state_rules
      ++ compSection e "DATA" comp.data_attr_rules
      ++ compSection e "COND" comp.conditional_blocks
      ++ baseAnimLines
      ++ comp.animations.map (fun anim => "ANIM|" ++ anim)
      ++ comp.extra_raw.map (fun raw => "RAW|" ++ raw)
    if sections.isEmpty then none
    else some (String.intercalate "\n" sections)

/-! ### `compute_css` and the resolution chain -/

def lbrace : Char := Char.ofNat 123
def rbrace : Char := Char.ofNat 125

/-- The variant-prefix classification loop shared by `compute_css` and
`compute_css_from_raw_and_escaped`: accumulate media queries, the
pseudo-class suffix, and wrapper selectors over the `':'`-separated
prefix parts. -/
def variantContext (e : StyleEngine) (prefixSegment : String) :
    List String × String × List String :=
  if prefixSegment.isEmpty then ([], "", [])
  else
    (sSplitChar prefixSegment ':').foldl (fun acc part =>
      let (mq, pseudo, wrap) := acc
      match lookupAssoc e.screens part with
      | some v => (mq ++ ["@media (min-width: " ++ v ++ ")"], pseudo, wrap)
      | none =>
        match lookupAssoc e.containerQueries part with
        | some v => (mq ++ ["@container (min-width: " ++ v ++ ")"], pseudo, wrap)
        | none =>
          match lookupAssoc e.states part with
          | some sv =>
            if sContains sv "&" then (mq, pseudo, wrap ++ [sv])
            else (mq, pseudo ++ sv, wrap)
          | none =>
            if part = "dark" then (mq, pseudo, wrap ++ [".dark &"])
            else if part = "light" then (mq, pseudo, wrap ++ [":root &"])
            else acc) ([], "", [])

/-- The first-match-wins declaration-body chain of `compute_css` /
`compute_css_from_raw_and_escaped`: (1) composite on the full token,
(2) static table on the prefix-stripped base, (3) color utility,
(4) animation stub unless the token contains a space, (5) dynamic/scale
utility, (6) composite on the base. -/
def coreCssRaw (e : StyleEngine) (reg : Registry) (className baseClass : String) :
    Option String :=
  match expandComposite e reg className with
  | some v => some v
  | none =>
  match lookupAssoc e.precompiled baseClass with
  | some v => some v
  | none =>
  match generateColorCss e baseClass with
  | some v => some v
  | none =>
  match (if sContains className " " then none else generateAnimationCss className) with
  | some v => some v
  | none =>
  match generateDynamicCss e baseClass with
  | some v => some v
  | none => expandComposite e reg baseClass

/-- `compute_css`.  (`serialize_identifier` into a `String` accumulator
never errors, so the manual fallback escape loop is dead code.) -/
def computeCss (e : StyleEngine) (reg : Registry) (className : String) :
    Option String :=
  if sStarts className "from(" || sStarts className "to(" || sStarts className "via(" then
    none
  else
    let (prefixSegment, baseClass) :=
      match sRFindChar className ':' with
      | some idx => (sTake className idx, sDrop className (idx + 1))
      | none => ("", className)
    let ctx := variantContext e prefixSegment
    (coreCssRaw e reg className baseClass).map (fun css0 =>
      let css := sanitizeDeclarations css0
      let selector := "." ++ serializeIdentifier className ++ ctx.2.1
      wrapMediaQueries (decodeEncodedCss e css selector ctx.2.2) ctx.1)

/-- Stable insertion by the recorded declaration order (orders are
distinct), for `ordered.sort_by_key` in `generate_container_group`. -/
def insertByOrd (x : String × Nat × String) :
    List (String × Nat × String) → List (String × Nat × String)
  | [] => [x]
  | y :: ys => if x.2.1 < y.2.1 then x :: y :: ys else y :: insertByOrd x ys

/-- `generate_container_group` for `?@container><size>(utils…)` tokens. -/
def generateContainerGroup (e : StyleEngine) (reg : Registry)
    (raw escapedSelector : String) : Option String :=
  let afterPfx := sDrop raw 12
  match sFindChar afterPfx '(' with
  | none => none
  | some parenIdx =>
    let sizePart := sTrim (sTake afterPfx parenIdx)
    if sizePart.isEmpty then none
    else
      match stripSfx (sDrop afterPfx (parenIdx + 1)) ")" with
      | none => none
      | some innerRaw =>
        -- an all-digit size gets `px`; the remaining Rust branches all
        -- keep the size expression verbatim
        let sizeExpr :=
          if sizePart.data.all (fun c => isAsciiDigit c) then sizePart ++ "px"
          else sizePart
        let innerUtils := sSplitWs innerRaw
        if innerUtils.isEmpty then none
        else
          let step := fun (acc : List (String × Nat × String) × Nat) (util : String) =>
            match computeCss e reg util with
            | none => acc
            | some rawCss =>
              match sFindChar rawCss lbrace, sFindChar rawCss rbrace with
              | some openIdx, some closeIdx =>
                if openIdx < closeIdx then
                  let body := String.mk ((rawCss.data.take closeIdx).drop (openIdx + 1))
                  (sSplitChar body ';').foldl (fun acc2 seg0 =>
                    let seg := sTrim seg0
                    if seg.isEmpty then acc2
                    else
                      match sFindChar seg ':' with
                      | some colonIdx =>
                        let prop := sTrim (sTake seg colonIdx)
                        let value := trimEndSemis (sTrim (sDrop seg (colonIdx + 1)))
                        (insertAssoc acc2.1 prop (acc2.2, value), acc2.2 + 1)
                      | none => acc2) acc
                else acc
              | _, _ => acc
          let (decls, _) := innerUtils.foldl step ([], 0)
          if decls.isEmpty then none
          else
            let ordered := decls.foldl (fun acc x => insertByOrd x acc) []
            let body := ordered.foldl (fun acc pv =>
              acc ++ "    " ++ pv.1 ++ ": " ++ pv.2.2 ++ ";\n") ""
            some ("@container (min-width: " ++ sizeExpr ++ ") \x7b\n  ."
              ++ escapedSelector ++ " \x7b\n" ++ body ++ "  \x7d\n\x7d\n")

/-- The selector re-escaping loop of `compute_css_from_raw_and_escaped`:
`':'`/`'@'` get a backslash unless the previous source char was one. -/
def reEscapeSelector (escaped : String) : String :=
  (escaped.data.foldl (fun (acc : String × Option Char) ch =>
    let s :=
      if ch = ':' then (if acc.2 = some '\\' then ":" else "\\:")
      else if ch = '@' then (if acc.2 = some '\\' then "@" else "\\@")
      else String.mk [ch]
    (acc.1 ++ s, some ch)) ("", none)).1

/-- `compute_css_from_raw_and_escaped`. -/
def computeCssFromRawAndEscaped (e : StyleEngine) (reg : Registry)
    (className escaped : String) : Option String :=
  if sStarts className "from(" || sStarts className "to(" || sStarts className "via(" then
    none
  else
    let containerResult :=
      if sStarts className "?@container>" && sContains className "("
          && sEnds className ")" then
        generateContainerGroup e reg className escaped
      else none
    match containerResult with
    | some block => some block
    | none =>
      let (prefixSegment, baseClass) :=
        match sRFindChar className ':' with
        | some idx => (sTake className idx, sDrop className (idx + 1))
        | none => ("", className)
      let ctx := variantContext e prefixSegment
      (coreCssRaw e reg className baseClass).map (fun css0 =>
        let css := sanitizeDeclarations css0
        let selector := "." ++ reEscapeSelector escaped ++ ctx.2.1
        wrapMediaQueries (decodeEncodedCss e css selector ctx.2.2) ctx.1)

/-! ### `generate_css_for_classes_batch` -/

/-- The inline companion scan of batch mode: `from()/to()/via()/forwards`
written as space-separated suffixes of the same class-name string. -/
def batchInlineScan (name : String) :
    List String × List String × List (List String) × Option String :=
  if sContains name " " then
    ((sSplitWs name).drop 1).foldl (fun acc token =>
      let (f, t, v, fill) := acc
      if token = "forwards" then (f, t, v, some "forwards")
      else
        match stripPfx token "from(" with
        | some inner =>
          (match stripSfx inner ")" with
           | some body =>
             if body.isEmpty then (f, t, v, fill)
             else (f ++ [String.intercalate "+" (sSplitWs body)], t, v, fill)
           | none => (f, t, v, fill))
        | none =>
          match stripPfx token "to(" with
          | some inner =>
            (match stripSfx inner ")" with
             | some body =>
               if body.isEmpty then (f, t, v, fill)
               else (f, t ++ [String.intercalate "+" (sSplitWs body)], v, fill)
             | none => (f, t, v, fill))
          | none =>
            match stripPfx token "via(" with
            | some inner =>
              (match stripSfx inner ")" with
               | some body =>
                 if body.isEmpty then (f, t, v, fill)
                 else (f, t, v ++ [[String.intercalate "+" (sSplitWs body)]], fill)
               | none => (f, t, v, fill))
            | none => (f, t, v, fill)) ([], [], [], none)
  else ([], [], [], none)

/-- The floating-companion scan of batch mode: gather `from()/to()/via()`
and `forwards` tokens other than the `animate:` token itself, consuming
them. -/
def batchCompanionScan (classNames : List String) (name : String)
    (consumed : List String) :
    List String × List String × List (List String) × Option String × List String :=
  classNames.foldl (fun acc other =>
    let (f, t, v, fill, cons) := acc
    if other = name then acc
    else if other = "forwards" then (f, t, v, some "forwards", cons ++ [other])
    else
      match stripPfx other "from(" with
      | some inner =>
        (match stripSfx inner ")" with
         | some body =>
           let toks := sSplitWs body
           ((if toks.isEmpty then f else f ++ [String.intercalate "+" toks]),
            t, v, fill, cons ++ [other])
         | none => acc)
      | none =>
        match stripPfx other "to(" with
        | some inner =>
          (match stripSfx inner ")" with
           | some body =>
             let toks := sSplitWs body
             (f, (if toks.isEmpty then t else t ++ [String.intercalate "+" toks]),
              v, fill, cons ++ [other])
           | none => acc)
        | none =>
          match stripPfx other "via(" with
          | some inner =>
            (match stripSfx inner ")" with
             | some body =>
               let toks := sSplitWs body
               (f, t, (if toks.isEmpty then v else v ++ [[String.intercalate "+" toks]]),
                fill, cons ++ [other])
             | none => acc)
          | none => acc) ([], [], [], none, consumed)

/-- `generate_css_for_classes_batch`.  The `consumed` set is a list with
membership semantics; the unused `index_map` of the Rust source is dead
code and omitted. -/
def generateCssForClassesBatch (e : StyleEngine) (reg : Registry)
    (classNames : List String) : List String :=
  let firstPass := classNames.foldl (fun (acc : List String × List String) name =>
    let (out, consumed) := acc
    if !(sStarts name "animate:") then acc
    else if consumed.contains name then acc
    else
      let rest := sDrop name 8
      let parts := sSplitChar rest ':'
      let duration := sTrim (parts.headD "1s")
      let delay := sTrim ((parts.drop 1).headD "0s")
      let inline := batchInlineScan name
      let baseToken := (sSplitWs name).headD name
      let comp := batchCompanionScan classNames name consumed
      let (cf, ct, cv, cfill, consumed2) := comp
      let (inF, inT, inV, inFill) := inline
      let (fromTokens, toTokens, viaGroups, fillMode) :=
        if !inF.isEmpty || !inT.isEmpty || !inV.isEmpty || inFill.isSome then
          (cf ++ inF, ct ++ inT, cv ++ inV, if inFill.isSome then inFill else cfill)
        else (cf, ct, cv, cfill)
      if fromTokens.isEmpty && toTokens.isEmpty && viaGroups.isEmpty then
        match computeCss e reg name with
        | some css => (out ++ [css], consumed2)
        | none => (out, consumed2)
      else
        let consumed3 := consumed2 ++ [name]
        let encodedLines := ["ANIM|animate|" ++ duration ++ "|" ++ delay]
          ++ (match fillMode with | some f => ["ANIM|fill|" ++ f] | none => [])
          ++ fromTokens.map (fun ft => "ANIM|from|" ++ ft)
          ++ toTokens.map (fun tg => "ANIM|to|" ++ tg)
          ++ (viaGroups.map (fun vg => vg.map (fun v => "ANIM|via|" ++ v))).flatten
        let encodedCss := String.intercalate "\n" encodedLines
        let selector := "." ++ serializeIdentifier baseToken
        (out ++ [decodeEncodedCss e encodedCss selector []], consumed3)) ([], [])
  let (out1, consumed) := firstPass
  classNames.foldl (fun out name =>
    if consumed.contains name then out
    else if sStarts name "from(" || sStarts name "to(" || sStarts name "via("
        || name = "forwards" then out
    else
      match computeCss e reg name with
      | some css => out ++ [css]
      | none => out) out1

/-! ## Generator (`src/libs/src/generator.rs`)

The dev-path pipeline of `generate_css_ids` and the micro-patch
`patch_css_file`, modelled without the filesystem: the existing output
text is an argument, the written text a result.  The LRU caches are
modelled by their miss path (the defining computation), and `HashSet`
iteration order is determinized by sorting the ID deltas (every theorem
below is order-independent). -/

def charAtA (cs : Array Char) (i : Nat) : Char := cs.getD i (Char.ofNat 0)

def subStrArr (cs : Array Char) (a b : Nat) : String :=
  String.mk ((cs.toList.drop a).take (b - a))

/-- First index `≥ i` whose char satisfies `stop` (or the size). -/
def scanIdx (cs : Array Char) : Nat → Nat → (Char → Bool) → Nat
  | 0, i, _ => i
  | fuel + 1, i, stop =>
    if i < cs.size then
      (if stop (charAtA cs i) then i else scanIdx cs fuel (i + 1) stop)
    else i

/-- `fix_missing_dot_for_escaped_symbol_groups`, per line: a line whose
first non-blank text is `\~ident\(` gets a `.` prepended. -/
def fixMissingDotLine (line : String) : Option String :=
  let ws := line.data.takeWhile (fun c => isWs c)
  if ws.length = line.length then none
  else
    let rest := sDrop line ws.length
    if sStarts rest "\\" then
      let cs := rest.data
      if 3 < cs.length && cs.getD 1 ' ' = '~' then
        let idx := 2 + ((cs.drop 2).takeWhile (fun c =>
          isAsciiAlphanum c || c = '-' || c = '_')).length
        if idx + 2 < cs.length && cs.getD idx ' ' = '\\' && cs.getD (idx + 1) ' ' = '(' then
          some (sTake line ws.length ++ "." ++ rest)
        else none
      else none
    else none

def fixMissingDot (input : String) : String :=
  if (sLines input).all (fun line => (fixMissingDotLine line).isNone) then input
  else (sLines input).foldl (fun acc line =>
    acc ++ (fixMissingDotLine line).getD line ++ "\n") ""

/-- The brace walk of `remove_selector_blocks` (depth counter, position
after the matching close, else the end). -/
def rsbBraceWalk (cs : Array Char) : Nat → Nat → Nat → Nat
  | 0, i, _ => i
  | fuel + 1, i, depth =>
    if i < cs.size then
      let c := charAtA cs i
      if c = lbrace then rsbBraceWalk cs fuel (i + 1) (depth + 1)
      else if c = rbrace then
        (if depth - 1 = 0 then i + 1 else rsbBraceWalk cs fuel (i + 1) (depth - 1))
      else rsbBraceWalk cs fuel (i + 1) depth
    else i

def removeSelectorBlocksAux (pred : String → Bool) (cs : Array Char) :
    Nat → Nat → String → String
  | 0, _, out => out
  | fuel + 1, i, out =>
    if i < cs.size then
      if charAtA cs i = '.' then
        let j := scanIdx cs (cs.size + 1) i (fun c => c = lbrace || c = '\n')
        let found : Option Nat × Nat :=
          if j < cs.size && charAtA cs j = lbrace then (some j, j)
          else if j < cs.size && charAtA cs j = '\n' then
            let k := scanIdx cs (cs.size + 1) (j + 1) (fun c => c = lbrace || !isAsciiWs c)
            if k < cs.size && charAtA cs k = lbrace then (some k, j) else (none, j)
          else (none, j)
        match found.1 with
        | some bpos =>
          let selector0 := sTrimEnd (subStrArr cs i found.2)
          let selector := sTrimEnd (match sFind selector0 "\\(" with
            | some gi => sTake selector0 gi
            | none => selector0)
          if pred selector then
            let iEnd := rsbBraceWalk cs (cs.size + 1) bpos 0
            let iSkip := scanIdx cs (cs.size + 1) iEnd (fun c => !(c = '\n' || isAsciiWs c))
            removeSelectorBlocksAux pred cs fuel iSkip out
          else removeSelectorBlocksAux pred cs fuel (i + 1) (out ++ String.mk [charAtA cs i])
        | none => removeSelectorBlocksAux pred cs fuel (i + 1) (out ++ String.mk [charAtA cs i])
      else removeSelectorBlocksAux pred cs fuel (i + 1) (out ++ String.mk [charAtA cs i])
    else out

def removeSelectorBlocks (input : String) (pred : String → Bool) : String :=
  let cs := input.data.toArray
  removeSelectorBlocksAux pred cs (cs.size + 1) 0 ""

def variantsList : List String :=
  [".hover\\(", ".focus\\(", ".active\\(", ".focus-within\\(", ".focus-visible\\(",
   ".visited\\(", ".disabled\\(", ".checked\\(", ".group-hover\\(", ".group-focus\\(",
   ".group-active\\(", ".peer-hover\\(", ".peer-focus\\(", ".peer-active\\(", ".dark\\("]

/-- Whitespace runs collapsed to single spaces (the variant-block
predicate's `simple`). -/
def collapseWs (s : String) : String :=
  (s.data.foldl (fun (acc : String × Bool) ch =>
    if isWs ch then (if acc.2 then acc else (acc.1 ++ " ", true))
    else (acc.1 ++ String.mk [ch], false)) ("", false)).1

/-- The orphan-variant-group predicate of `normalize_generated_css`. -/
def variantPred (sel : String) : Bool :=
  let t0 := sTrim (collapseWs sel)
  let t := match sFind t0 "\\(" with
    | some i => sTake t0 i
    | none => t0
  if sContains t " " then false
  else variantsList.any (fun v =>
    t = v || sStarts t v ||
    (match stripSfx v "\\(" with
     | some base => t = base
     | none => false))

/-- `remove_orphan_selectors`: drop brace-less `.selector` lines. -/
def removeOrphanSelectors (input : String) : String :=
  (sLines input).foldl (fun acc line =>
    let t := sTrim line
    if sStarts t "." && !(sContains t (String.mk [lbrace])) && !t.isEmpty then acc
    else acc ++ line ++ "\n") ""

def reescapeAux (cs : Array Char) : Nat → Nat → Nat → String → String × Nat
  | 0, _, lastCopy, out => (out, lastCopy)
  | fuel + 1, i, lastCopy, out =>
    if i < cs.size then
      if charAtA cs i = '.' then
        let start := i + 1
        if cs.size ≤ start then (out, lastCopy)
        else if isAsciiDigit (charAtA cs start) then reescapeAux cs fuel (i + 1) lastCopy out
        else if charAtA cs start = '\\' then reescapeAux cs fuel (i + 1) lastCopy out
        else
          let ch := charAtA cs start
          let needsEscape :=
            (if isAsciiAlpha ch || ch = '_' then false
             else if ch = '-' then
               (if start + 1 < cs.size then isAsciiDigit (charAtA cs (start + 1)) else false)
             else true) || isAsciiDigit ch
          if needsEscape then
            let out2 := if lastCopy < i then out ++ subStrArr cs lastCopy (i + 1) else out
            reescapeAux cs fuel (start + 1) (start + 1) (out2 ++ "\\" ++ String.mk [ch])
          else reescapeAux cs fuel (i + 1) lastCopy out
      else reescapeAux cs fuel (i + 1) lastCopy out
    else (out, lastCopy)

/-- `reescape_leading_invalid_identifiers`. -/
def reescapeLeadingInvalidIdentifiers (input : String) : String :=
  let cs := input.data.toArray
  let (out, lastCopy) := reescapeAux cs (cs.size + 1) 0 0 ""
  if lastCopy = 0 then input
  else if lastCopy < cs.size then out ++ subStrArr cs lastCopy cs.size
  else out

def lastChar (s : String) : Option Char := s.data.getLast?

def nccsAux (cs : Array Char) : Nat → Nat → Nat → String → String
  | 0, _, _, out => out
  | fuel + 1, i, depth, out =>
    if i < cs.size then
      let c := charAtA cs i
      if c = lbrace then nccsAux cs fuel (i + 1) (depth + 1) (out ++ String.mk [c])
      else if c = rbrace then
        nccsAux cs fuel (i + 1) (if 0 < depth then depth - 1 else depth) (out ++ String.mk [c])
      else if c = '>' && depth = 0 then
        if sEnds out "\\" then nccsAux cs fuel (i + 1) depth (out ++ ">")
        else
          let out2 := String.mk ((out.data.reverse.dropWhile (fun a => a = ' ')).reverse)
          let out3 :=
            if (match lastChar out2 with
                | some a => a = ' ' || a = '\n' || a = '\t' || a = ',' || a = lbrace
                | none => false) then out2
            else out2 ++ " "
          let out4 := out3 ++ ">"
          let i2 := scanIdx cs (cs.size + 1) (i + 1) (fun a => !isWs a || a = '\n')
          let out5 :=
            if i2 < cs.size then
              let next := charAtA cs i2
              if next = ' ' || next = '\n' || next = '\t' || next = lbrace
                  || next = ',' || next = '>' then out4
              else out4 ++ " "
            else out4
          nccsAux cs fuel i2 depth out5
      else nccsAux cs fuel (i + 1) depth (out ++ String.mk [c])
    else out

/-- `normalize_child_combinator_spacing`. -/
def normalizeChildCombinatorSpacing (input : String) : String :=
  let cs := input.data.toArray
  nccsAux cs (cs.size + 1) 0 0 ""

def skipWsUntilNl (cs : Array Char) : Nat → Nat → Nat
  | 0, i => i
  | fuel + 1, i =>
    if i < cs.size && isAsciiWs (charAtA cs i) then
      (if charAtA cs i = '\n' then i + 1 else skipWsUntilNl cs fuel (i + 1))
    else i

def rerAux (cs : Array Char) : Nat → Nat → String → String
  | 0, _, out => out
  | fuel + 1, i, out =>
    if i < cs.size then
      if charAtA cs i = '.' then
        let j := scanIdx cs (cs.size + 1) i (fun c => c = lbrace || c = '\n')
        if j < cs.size && charAtA cs j = lbrace then
          let k := scanIdx cs (cs.size + 1) (j + 1) (fun c => !isAsciiWs c)
          if k < cs.size && charAtA cs k = rbrace then
            rerAux cs fuel (skipWsUntilNl cs (cs.size + 1) (k + 1)) out
          else rerAux cs fuel (i + 1) (out ++ String.mk [charAtA cs i])
        else rerAux cs fuel (i + 1) (out ++ String.mk [charAtA cs i])
      else rerAux cs fuel (i + 1) (out ++ String.mk [charAtA cs i])
    else out

/-- `remove_empty_rules`. -/
def removeEmptyRules (input : String) : String :=
  let cs := input.data.toArray
  rerAux cs (cs.size + 1) 0 ""

/-- `condense_blank_lines`. -/
def condenseBlankLines (input : String) : String :=
  let out := (input.data.foldl (fun (acc : String × Nat) ch =>
    let run := if ch = '\n' then acc.2 + 1 else 0
    ((if run ≤ 2 then acc.1 ++ String.mk [ch] else acc.1), run)) ("", 0)).1
  let out := String.mk (out.data.dropWhile (fun c => c = '\n'))
  let out := String.mk ((out.data.reverse.dropWhile (fun c => c = '\n')).reverse)
  out ++ "\n"

/-- The per-line `animation:` value cleanup of `normalize_generated_css`:
drop stale `from()/to()/via()` tokens and duplicate `forwards`. -/
def animationLineClean (line : String) : String :=
  match sFind line "animation:" with
  | none => line
  | some idx =>
    let pfxPart := sTake line idx
    let valuePart0 := sTrim (sDrop line (idx + 10))
    let valuePart :=
      match sFindChar valuePart0 ';' with
      | some semi => sTake valuePart0 semi
      | none => valuePart0
    let filtered := ((sSplitWs valuePart).foldl (fun (acc : List String × Bool) t =>
      if sStarts t "from(" || sStarts t "to(" || sStarts t "via(" then acc
      else if t = "forwards" then (if acc.2 then acc else (acc.1 ++ [t], true))
      else (acc.1 ++ [t], acc.2)) ([], false)).1
    pfxPart ++ "animation: " ++ String.intercalate " " filtered ++ ";"

/-- `normalize_generated_css` (cache-miss path). -/
def normalizeGeneratedCss (css : String) : String :=
  if css.length < 3 then css
  else
    let out := fixMissingDot css
    let out := removeSelectorBlocks out (fun sel => sStarts sel ".dx-class-" && 18 ≤ sel.length)
    let out := removeSelectorBlocks out variantPred
    let out := removeOrphanSelectors out
    let out := reescapeLeadingInvalidIdentifiers out
    let out := normalizeChildCombinatorSpacing out
    let out := removeEmptyRules out
    if sContains out "animation:" then
      (sLines out).foldl (fun acc line => acc ++ animationLineClean line ++ "\n") ""
    else out

/-! ### `patch_css_file` -/

/-- Brace search of `remove_rule_block`: first `\x7b` after the matched
selector, aborting at a blank line. -/
def rrbFindBrace (cs : Array Char) (start : Nat) : Nat → Nat → Option Nat
  | 0, _ => none
  | fuel + 1, bs =>
    if bs < cs.size then
      let c := charAtA cs bs
      if c = lbrace then some bs
      else if c = '\n' && start < bs && charAtA cs (bs - 1) = '\n' then none
      else rrbFindBrace cs start fuel (bs + 1)
    else none

/-- Depth walk of `remove_rule_block` to the matching closing brace. -/
def rrbBraceWalk (cs : Array Char) : Nat → Nat → Int → Option Nat
  | 0, _, _ => none
  | fuel + 1, i, depth =>
    if i < cs.size then
      let c := charAtA cs i
      if c = lbrace then rrbBraceWalk cs fuel (i + 1) (depth + 1)
      else if c = rbrace then
        (if depth - 1 = 0 then some (i + 1) else rrbBraceWalk cs fuel (i + 1) (depth - 1))
      else rrbBraceWalk cs fuel (i + 1) depth
    else none

def removeRuleBlockAux (needle : String) : Nat → String → Nat → Bool → String × Bool
  | 0, src, _, did => (src, did)
  | fuel + 1, src, pos, did =>
    match sFind (sDrop src pos) needle with
    | none => (src, did)
    | some rel =>
      let start := pos + rel
      let cs := src.data.toArray
      let boundaryOk :=
        if 0 < start then
          let prev := charAtA cs (start - 1)
          isWs prev || prev = '\n' || prev = rbrace
        else true
      if !boundaryOk then removeRuleBlockAux needle fuel src (start + needle.length) did
      else
        match rrbFindBrace cs start (cs.size + 1) (start + needle.length) with
        | none => removeRuleBlockAux needle fuel src (start + needle.length) did
        | some openPos =>
          match rrbBraceWalk cs (cs.size + 1) openPos 0 with
          | none => removeRuleBlockAux needle fuel src (start + needle.length) did
          | some ruleEnd0 =>
            let ruleEnd := scanIdx cs (cs.size + 1) ruleEnd0 (fun c => !isWs c)
            if start < ruleEnd then
              removeRuleBlockAux needle fuel (sTake src start ++ sDrop src ruleEnd) 0 true
            else removeRuleBlockAux needle fuel src (start + needle.length) did

/-- `remove_rule_block`: delete every `.className`-anchored
brace-balanced block, rescanning from the top after each removal. -/
def removeRuleBlock (src className : String) : String × Bool :=
  removeRuleBlockAux ("." ++ className) ((src.length + 2) * (src.length + 2)) src 0 false

/-- The mutation core of `patch_css_file`: remove the rules of the
removed classes, then append the normalized batch-resolved rules of the
added classes; the flag is the `changed` variable. -/
def patchCore (e : StyleEngine) (reg : Registry) (interner : Nat → String)
    (content : String) (removedIds addedIds : List Nat) : String × Bool :=
  let afterRemove := removedIds.foldl (fun (acc : String × Bool) id =>
    let r := removeRuleBlock acc.1 (interner id)
    (r.1, acc.2 || r.2)) (content, false)
  if addedIds.isEmpty then afterRemove
  else
    let addedNames := addedIds.map interner
    let newCss := generateCssForClassesBatch e reg addedNames
    newCss.foldl (fun (acc : String × Bool) css =>
      let norm := normalizeGeneratedCss css
      if (sTrim norm).isEmpty then acc
      else
        let c := acc.1
        let c2 := if !c.isEmpty && !(sEnds c "\n\n") then c ++ "\n\n" else c
        (c2 ++ norm, true)) afterRemove

/-- `patch_css_file` without the filesystem: `none` is `false` (fall
back to full regeneration), `some text` is `true` with the resulting
on-disk output (unchanged when the function returns `true` without
writing).  The ID `HashSet`s are lists of distinct IDs (iteration
order); the deltas are computed by the same membership scans as the
Rust loops. -/
def patchCssFile (e : StyleEngine) (reg : Registry) (interner : Nat → String)
    (content : String) (oldIds newIds : List Nat) : Option String :=
  let addedIds := newIds.filter (fun id => !oldIds.contains id)
  let removedIds := oldIds.filter (fun id => !newIds.contains id)
  if addedIds.isEmpty && removedIds.isEmpty then some content
  else if 32 < addedIds.length + removedIds.length then none
  else
    let pc := patchCore e reg interner content removedIds addedIds
    if !pc.2 && 0 < addedIds.length + removedIds.length then none
    else if pc.2 && pc.1.length ≠ content.length then some pc.1
    else some content

/-! ### Full regeneration (dev path of `generate_css_ids`) -/

def chunkListAux (n : Nat) : Nat → List Nat → List (List Nat)
  | 0, _ => []
  | _, [] => []
  | fuel + 1, l => l.take n :: chunkListAux n fuel (l.drop n)

def chunkList (n : Nat) (l : List Nat) : List (List Nat) := chunkListAux n (l.length + 1) l

/-- The dev-path full regeneration of `generate_css_ids`: sorted IDs,
batch-resolved in chunks of 64, normalized (empties dropped, and the
`zip` pairing each chunk ID with the positional batch output), joined by
blank lines and condensed.  An output with no content is written as the
empty file. -/
def insertNat (x : Nat) : List Nat → List Nat
  | [] => [x]
  | y :: ys => if x ≤ y then x :: y :: ys else y :: insertNat x ys

/-- `sort_unstable` on distinct IDs (any correct sort gives the list). -/
def sortNat (l : List Nat) : List Nat := l.foldr insertNat []

def fullRegenDev (e : StyleEngine) (reg : Registry) (interner : Nat → String)
    (ids : List Nat) : String :=
  let sorted := sortNat ids
  let blocks := (chunkList 64 sorted).foldl (fun acc chunk =>
    let names := chunk.map interner
    let newCss := generateCssForClassesBatch e reg names
    let newNormalized := newCss.map normalizeGeneratedCss
    acc ++ (List.zip chunk newNormalized).filterMap (fun p =>
      if (sTrim p.2).isEmpty then none else some p.2)) []
  if blocks.isEmpty then ""
  else condenseBlankLines (String.intercalate "\n\n" blocks)

/-! ### Rule-block view (specification side)

The C2 claim compares stylesheets as *sets of rule blocks, ignoring
whitespace and block-ordering differences*; these definitions formalise
that wording (they model the spec, not repository code). -/

def splitOnSubAux (pat : List Char) : Nat → List Char → List Char → List (List Char)
  | 0, acc, _ => [acc.reverse]
  | fuel + 1, acc, s =>
    match s with
    | [] => [acc.reverse]
    | c :: rest =>
      if listStartsWith s pat then splitOnSubAux pat fuel [] (s.drop pat.length)
      else splitOnSubAux pat fuel (c :: acc) rest

def splitOnSub (s pat : String) : List String :=
  (splitOnSubAux pat.data (s.length + 1) [] s.data).map String.mk

/-- The set of rule blocks of a stylesheet: blank-line-separated chunks,
trimmed, empties dropped, order forgotten. -/
def cssBlocks (s : String) : Finset String :=
  (((splitOnSub s "\n\n").map sTrim).filter (fun b => !b.isEmpty)).toFinset

/-- Semantic equivalence in the sense of the spec's patch/full-regen
property. -/
def cssSemEquiv (a b : String) : Prop := cssBlocks a = cssBlocks b

/-- The per-line two-space indenter inside `wrap_media_queries`. -/
def mqIndent (body : String) : String :=
  (sLines (sTrimEnd body)).foldl (fun acc line =>
    if line.isEmpty then acc else acc ++ "  " ++ line ++ "\n") ""

/-! ### `ClassNameVisitor::expand_grouping` (parser.rs)

State threading for the visitor's grouping expander: `components` is the
visitor-global component table, `localComps` the per-call one, `reg` the
composite registry, `out` the returned class-name vector. -/

structure EGState where
  components : List (String × List String)
  localComps : List (String × List String)
  reg : Registry
  pending : Option Composite
  animateMode : Bool
  animateGroupStart : Option Nat
  out : List String

/-- `raw[a..b]` over the char list (ASCII inputs: byte = char positions). -/
def sliceStr (cs : List Char) (a b : Nat) : String := String.mk ((cs.take b).drop a)

/-- The inner whitespace-skip loop of `expand_grouping`. -/
def egSkipWs (cs : List Char) : Nat → Nat → Nat
  | 0, i => i
  | fuel + 1, i =>
    if i < cs.length then
      if isAsciiWs (cs.getD i ' ') then egSkipWs cs fuel (i + 1) else i
    else i

/-- The identifier scan: stop at `'('` or ASCII whitespace. -/
def egScanIdent (cs : List Char) : Nat → Nat → Nat
  | 0, i => i
  | fuel + 1, i =>
    if i < cs.length then
      let c := cs.getD i ' '
      if c = '(' ∨ isAsciiWs c then i else egScanIdent cs fuel (i + 1)
    else i

/-- The balanced-paren walk (`while i < len && depth > 0`). -/
def egDepthWalk (cs : List Char) : Nat → Nat → Nat → Nat
  | 0, i, _ => i
  | fuel + 1, i, depth =>
    if i < cs.length ∧ 0 < depth then
      let c := cs.getD i ' '
      let d := if c = '(' then depth + 1 else if c = ')' then depth - 1 else depth
      egDepthWalk cs fuel (i + 1) d
    else i

/-- The nested-tag scan inside a group body: tag chars are alphanumeric
or `'-'`, started by an alphabetic char. -/
def egScanTag (cs : List Char) : Nat → Nat → Nat
  | 0, j => j
  | fuel + 1, j =>
    if j < cs.length then
      let c := cs.getD j ' '
      if isAsciiAlphanum c ∨ c = '-' then egScanTag cs fuel (j + 1) else j
    else j

/-- The `nested_children` collection loop over the group body. -/
def egNestedChildren (cs : List Char) : Nat → Nat → List (String × List String)
  | 0, _ => []
  | fuel + 1, j =>
    if j < cs.length then
      if isAsciiAlpha (cs.getD j ' ') then
        let jTag := egScanTag cs (cs.length + 1) j
        if jTag < cs.length ∧ cs.getD jTag ' ' = '(' then
          let contentStart := jTag + 1
          let jEnd := egDepthWalk cs (cs.length + 1) contentStart 1
          let tag := sliceStr cs j jTag
          let toks := sSplitWs (sliceStr cs contentStart (jEnd - 1))
          (if tag ≠ "" ∧ toks ≠ [] then [(tag, toks)] else [])
            ++ egNestedChildren cs fuel jEnd
        else egNestedChildren cs fuel jTag
      else egNestedChildren cs fuel (j + 1)
    else []

/-- Split a char list at every char satisfying `p` (Rust `str::split`
with a char-class pattern: empty pieces are kept). -/
def splitPredAux (p : Char → Bool) : List Char → List Char → List String
  | [], acc => [String.mk acc.reverse]
  | c :: cs, acc =>
    if p c then String.mk acc.reverse :: splitPredAux p cs []
    else splitPredAux p cs (c :: acc)

/-- `trim_end_matches(',')`. -/
def trimEndCommas (s : String) : String :=
  String.mk ((s.data.reverse.dropWhile (fun c => c = ',')).reverse)

/-- `trim_matches(c)`: strip the char from both ends. -/
def trimMatchesChar (s : String) (c : Char) : String :=
  String.mk (((s.data.dropWhile (fun x => x = c)).reverse.dropWhile
    (fun x => x = c)).reverse)

/-- `inner_tokens`: split the group body on whitespace/commas, drop
empties, trim each piece and strip trailing commas. -/
def egInnerTokens (inner : String) : List String :=
  ((splitPredAux (fun c => isAsciiWs c || c = ',') inner.data []).filter
    (fun s => !s.isEmpty)).map (fun s => trimEndCommas (sTrim s))

/-- `parse_part` of the `~fluid` branch: `value@breakpoint` with the
breakpoint defaulting to `base`. -/
def egParsePart (s : String) : String × String :=
  match sSplitChar s '@' with
  | [] => ("", "base")
  | v :: rest => (sTrim v, sTrim (rest.headD "base"))

/-- The `mesh` color collector: flush the buffer at `[`, `]` and `,`. -/
def egMeshColors (inner : String) : List String :=
  let step := fun (acc : List String × List Char) ch =>
    if ch = '[' ∨ ch = ']' ∨ ch = ',' then
      let buf := String.mk acc.2.reverse
      if (sTrim buf).isEmpty then (acc.1, ([] : List Char))
      else (acc.1 ++ [trimMatchesChar (trimMatchesChar (sTrim buf) ']') '['], [])
    else (acc.1, ch :: acc.2)
  let fin := inner.data.foldl step ([], [])
  let bufS := String.mk fin.2.reverse
  if (sTrim bufS).isEmpty then fin.1 else fin.1 ++ [sTrim bufS]

/-- `expand_component_tokens`: resolve `$name` (global then local) and
`_name` (local then global) token references. -/
def expandComponentTokens (comps lcomps : List (String × List String))
    (tokens : List String) : List String :=
  tokens.foldl (fun acc t =>
    match stripPfx t "$" with
    | some name =>
      match lookupAssoc comps name with
      | some base => acc ++ base
      | none =>
        match lookupAssoc lcomps name with
        | some base => acc ++ base
        | none => acc ++ [t]
    | none =>
      match stripPfx t "_" with
      | some name =>
        match lookupAssoc lcomps name with
        | some base => acc ++ base
        | none =>
          match lookupAssoc comps name with
          | some base => acc ++ base
          | none => acc ++ [t]
      | none => acc ++ [t]) []

/-- Apply `expand_component_tokens` to every section of a finalized
composite, then to its base. -/
def expandCompositeSections (comps lcomps : List (String × List String))
    (c : Composite) : Composite :=
  { c with
    state_rules := c.state_rules.map (fun q => (q.1, expandComponentTokens comps lcomps q.2)),
    child_rules := c.child_rules.map (fun q => (q.1, expandComponentTokens comps lcomps q.2)),
    data_attr_rules := c.data_attr_rules.map (fun q => (q.1, expandComponentTokens comps lcomps q.2)),
    conditional_blocks := c.conditional_blocks.map (fun q => (q.1, expandComponentTokens comps lcomps q.2)),
    base := expandComponentTokens comps lcomps c.base }

def egScreens : List String := ["xs", "sm", "md", "lg", "xl", "2xl"]

def egStates : List String :=
  ["hover", "focus", "focus-within", "focus-visible", "active", "visited",
   "disabled", "checked", "first", "last", "odd", "even", "required",
   "optional", "valid", "invalid", "read-only", "before", "after",
   "placeholder", "file", "marker", "selection", "group-hover",
   "group-focus", "group-active", "group-visited", "peer-checked",
   "peer-focus", "peer-active", "peer-hover", "empty", "target"]

def egCqs : List String :=
  ["@xs", "@sm", "@md", "@lg", "@xl", "@2xl", "@3xl", "@4xl", "@5xl",
   "@6xl", "@7xl", "@8xl", "@9xl"]

def egChildTags : List String :=
  ["div", "span", "p", "h1", "h2", "h3", "h4", "h5", "h6", "ul", "li",
   "section", "header", "footer", "main", "nav"]

/-- `ensure(&mut pending)`. -/
def egEnsure (p : Option Composite) : Composite := p.getD Composite.empty

/-- The if/else identifier dispatch of the parenthesized-group case, in
source order. -/
def egParenBranch (ident inner : String) (innerToks : List String)
    (nested : List (String × List String)) (st : EGState) : EGState :=
  if sStarts ident "+" || sStarts ident "-" then
    let additive := sStarts ident "+"
    let cname := String.mk (ident.data.dropWhile (fun c => c = '+' ∨ c = '-'))
    let tokens0 := ((lookupAssoc st.components cname).getD [])
      ++ ((lookupAssoc st.localComps cname).getD [])
    let tokens :=
      if additive then tokens0 ++ innerToks
      else tokens0.filter (fun t => !(innerToks.any (fun f => sStarts t f)))
    if tokens ≠ [] then
      let r := getOrCreate tokens st.reg
      { st with reg := r.2, out := st.out ++ [r.1] }
    else st
  else if egScreens.contains ident then
    let c := egEnsure st.pending
    { st with pending := some { c with
        conditional_blocks := c.conditional_blocks ++ [("screen:" ++ ident, innerToks)] } }
  else if egStates.contains ident || egCqs.contains ident
      || ident = "dark" || ident = "light" then
    let c := egEnsure st.pending
    { st with pending := some { c with
        state_rules := c.state_rules ++ [(ident, innerToks)] } }
  else if egChildTags.contains ident then
    let c := egEnsure st.pending
    { st with pending := some { c with
        child_rules := c.child_rules ++ [(ident, innerToks)] ++ nested } }
  else if sStarts ident "*" then
    let c := egEnsure st.pending
    let attrName := String.mk (ident.data.dropWhile (fun ch => ch = '*'))
    { st with pending := some { c with
        data_attr_rules := c.data_attr_rules ++ [(attrName, innerToks)] } }
  else if sStarts ident "?" then
    let c := egEnsure st.pending
    let cond := sDrop ident 1
    let entry :=
      match stripPfx cond "@self:" with
      | some rest => ("self:" ++ rest, innerToks)
      | none => (cond, innerToks)
    { st with pending := some { c with
        conditional_blocks := c.conditional_blocks ++ [entry] } }
  else if sStarts ident "~" then
    let c := egEnsure st.pending
    let rawProp := String.mk (ident.data.dropWhile (fun ch => ch = '~'))
    let prop := if rawProp = "text" then "font-size" else rawProp
    let pieces := ((sSplitChar inner ',').map sTrim).filter (fun s => !s.isEmpty)
    let c' :=
      match pieces.head?, (pieces.drop 1).head? with
      | some p0, some p1 =>
        let mn := egParsePart p0
        let mx := egParsePart p1
        { c with base := c.base ++ ["fluid:" ++ prop ++ ":" ++ mn.1 ++ ":"
            ++ mn.2 ++ ":" ++ mx.1 ++ ":" ++ mx.2] }
      | _, _ => c
    { st with pending := some c' }
  else if ident = "mesh" then
    let c := egEnsure st.pending
    let colors := egMeshColors inner
    let c' :=
      if colors ≠ [] then
        { c with base := c.base ++ ["gradient:mesh:" ++ String.intercalate "+" colors] }
      else c
    { st with pending := some c' }
  else if ident = "transition" then
    let c := egEnsure st.pending
    let duration := innerToks.headD "150ms"
    { st with pending := some { c with
        base := c.base ++ ["transition(" ++ duration ++ ")"] } }
  else if sStarts ident "$" then
    if innerToks ≠ [] then
      let cname := sDrop ident 1
      let r := getOrCreate innerToks st.reg
      let comps' :=
        if st.components.any (fun q => q.1 = cname) then st.components
        else st.components ++ [(cname, innerToks)]
      { st with reg := r.2, components := comps', out := st.out ++ [r.1] }
    else st
  else if sStarts ident "_" then
    let cname := String.mk (ident.data.dropWhile (fun ch => ch = '_'))
    let l' :=
      if st.localComps.any (fun q => q.1 = cname) then st.localComps
      else st.localComps ++ [(cname, innerToks)]
    { st with localComps := l', pending := some (egEnsure st.pending) }
  else if ident = "from" || ident = "to" || ident = "via" then
    let c := egEnsure st.pending
    { st with pending := some { c with
        animations := c.animations ++ [ident ++ "|" ++ String.intercalate "+" innerToks] } }
  else if ident = "motion" then
    let c := egEnsure st.pending
    { st with pending := some { c with
        base := c.base ++ ["motion:" ++ String.intercalate "_" innerToks] } }
  else
    let comps' :=
      if st.components.any (fun q => q.1 = ident) then st.components
      else st.components ++ [(ident, innerToks)]
    match lookupAssoc comps' ident with
    | some list =>
      let c := egEnsure st.pending
      { st with
          components := comps'
          pending := some { c with base := c.base ++ list } }
    | none => { st with components := comps' }

/-- The bare-identifier (no parenthesis) dispatch. -/
def egBareBranch (ident : String) (start : Nat) (st : EGState) : EGState :=
  if sStarts ident "_" then
    let cname := String.mk (ident.data.dropWhile (fun ch => ch = '_'))
    let c := egEnsure st.pending
    let c' :=
      match lookupAssoc st.localComps cname with
      | some l => { c with base := c.base ++ l }
      | none =>
        match lookupAssoc st.components cname with
        | some g => { c with base := c.base ++ g }
        | none => c
    { st with pending := some c' }
  else if ident = "forwards" then
    let c := egEnsure st.pending
    { st with pending := some { c with base := c.base ++ ["animfill:forwards"] } }
  else
    match lookupAssoc st.components ident with
    | some list =>
      let c := egEnsure st.pending
      { st with pending := some { c with base := c.base ++ list } }
    | none =>
      let c := egEnsure st.pending
      let st' := { st with pending := some { c with base := c.base ++ [ident] } }
      if sStarts ident "animate:" then
        { st' with animateMode := true, animateGroupStart := some start }
      else if st'.animateMode then { st' with animateMode := false }
      else st'

/-- The unconditional finalize after a parenthesized group
(parser.rs 399–447): raw-keyed registration of the pending composite
whenever animate mode is off, regardless of its animations. -/
def egFinalizeParen (cs : List Char) (start i : Nat) (st : EGState) : EGState :=
  if st.animateMode then st
  else
    match st.pending with
    | none => st
    | some c0 =>
      let c := expandCompositeSections st.components st.localComps c0
      let sliceStart := st.animateGroupStart.getD start
      let key := sTrim (sliceStr cs sliceStart i)
      let r := registerGroupingRaw key c st.reg
      { st with
          pending := none
          reg := r.2
          out := st.out ++ [r.1]
          animateGroupStart := none }

/-- The bare-token finalize (parser.rs 484–537): raw-keyed registration
only when the pending composite carries animation fragments. -/
def egFinalizeBare (cs : List Char) (start i : Nat) (st : EGState) : EGState :=
  if st.animateMode then st
  else
    match st.pending with
    | none => st
    | some c0 =>
      if c0.animations ≠ [] then
        let c := expandCompositeSections st.components st.localComps c0
        let sliceStart := st.animateGroupStart.getD start
        let key := sTrim (sliceStr cs sliceStart i)
        let r := registerGroupingRaw key c st.reg
        { st with
            pending := none
            reg := r.2
            out := st.out ++ [r.1]
            animateGroupStart := none }
      else st

/-- The `while i < bytes.len()` token loop of `expand_grouping`. -/
def expandGroupingLoop (cs : List Char) : Nat → Nat → EGState → EGState
  | 0, _, st => st
  | fuel + 1, i0, st =>
    let i1 := egSkipWs cs (cs.length + 1) i0
    if i1 < cs.length then
      let start := i1
      let iEnd := egScanIdent cs (cs.length + 1) i1
      let ident := sliceStr cs start iEnd
      if iEnd < cs.length ∧ cs.getD iEnd ' ' = '(' then
        let innerStart := iEnd + 1
        let iAfter := egDepthWalk cs (cs.length + 1) innerStart 1
        let inner := sliceStr cs innerStart (iAfter - 1)
        let nested := egNestedChildren inner.data (inner.data.length + 1) 0
        let st1 := egParenBranch ident inner (egInnerTokens inner) nested st
        let st2 := egFinalizeParen cs start iAfter st1
        expandGroupingLoop cs fuel iAfter st2
      else
        let st1 := egBareBranch ident start st
        let st2 := egFinalizeBare cs start iEnd st1
        expandGroupingLoop cs fuel iEnd st2
    else st

/-- `ClassNameVisitor::expand_grouping`: loop plus the trailing
finalization — a leftover pending composite with animations is
registered under the trimmed raw slice; one without animations is not
registered at all and only spills its base tokens into the output. -/
def expandGrouping (components : List (String × List String)) (reg : Registry)
    (raw : String) : EGState :=
  let cs := raw.data
  let st := expandGroupingLoop cs (cs.length + 1) 0
    ⟨components, [], reg, none, false, none, []⟩
  match st.pending with
  | some c =>
    if c.animations ≠ [] then
      let sliceStart := st.animateGroupStart.getD 0
      let key := sTrim (sliceStr cs sliceStart cs.length)
      let r := registerGroupingRaw key c st.reg
      { st with pending := none, reg := r.2, out := st.out ++ [r.1] }
    else { st with pending := none, out := st.out ++ c.base }
  | none => st

/-! ### Data-Manager bookkeeping lemmas -/

lemma refCount_cons (k : Nat) (v : Finset Nat) (l : List (Nat × Finset Nat)) (id : Nat) :
    refCount ((k, v) :: l) id = (if id ∈ v then 1 else 0) + refCount l id := by
  by_cases h : id ∈ v
  · simp [refCount, List.filter_cons, h]
    omega
  · simp [refCount, List.filter_cons, h]

lemma refCount_append (l₁ l₂ : List (Nat × Finset Nat)) (id : Nat) :
    refCount (l₁ ++ l₂) id = refCount l₁ id + refCount l₂ id := by
  simp [refCount, List.filter_append]

lemma map_replace_of_no_key (l : List (Nat × Finset Nat)) (p : Nat) (s : Finset Nat)
    (h : ∀ q ∈ l, q.1 ≠ p) : l.map (fun q => if q.1 = p then (p, s) else q) = l := by
  induction l with
  | nil => rfl
  | cons a l ih =>
      have ha := h a (by simp)
      simp only [List.map_cons, if_neg ha, List.cons.injEq, true_and]
      exact ih (fun q hq => h q (by simp [hq]))

lemma lookupFile_cons (k : Nat) (v : Finset Nat) (l : List (Nat × Finset Nat)) (p : Nat) :
    lookupFile ((k, v) :: l) p = if k = p then some v else lookupFile l p := by
  by_cases h : k = p <;> simp [lookupFile, List.find?_cons, h]

lemma lookupFile_none_of_no_key (l : List (Nat × Finset Nat)) (p : Nat)
    (h : ∀ q ∈ l, q.1 ≠ p) : lookupFile l p = none := by
  induction l with
  | nil => rfl
  | cons a l ih =>
      rcases a with ⟨k, v⟩
      rw [lookupFile_cons, if_neg (h (k, v) (by simp))]
      exact ih (fun q hq => h q (by simp [hq]))

lemma anyKey_iff (l : List (Nat × Finset Nat)) (p : Nat) :
    l.any (fun q => q.1 = p) = true ↔ ∃ q ∈ l, q.1 = p := by
  simp [List.any_eq_true]

lemma length_insertFile_monotone (l : List (Nat × Finset Nat)) (p : Nat) (s : Finset Nat) :
    l.length ≤ (insertFile l p s).length := by
  unfold insertFile
  split <;> simp

lemma nodup_keys_insertFile (l : List (Nat × Finset Nat)) (p : Nat) (s : Finset Nat)
    (h : (l.map Prod.fst).Nodup) : ((insertFile l p s).map Prod.fst).Nodup := by
  unfold insertFile
  split
  · have hmap : (l.map (fun q => if q.1 = p then (p, s) else q)).map Prod.fst
        = l.map Prod.fst := by
      rw [List.map_map]
      apply List.map_congr_left
      intro q _
      by_cases hq : q.1 = p
      · simp [hq]
      · simp [hq]
    rw [hmap]; exact h
  · rename_i hany
    have hno : ∀ q ∈ l, q.1 ≠ p := by
      intro q hq hqp
      exact hany ((anyKey_iff l p).2 ⟨q, hq, hqp⟩)
    simp only [List.map_append, List.map_cons, List.map_nil]
    rw [List.nodup_append]
    refine ⟨h, by simp, ?_⟩
    intro a ha hb
    simp only [List.mem_cons, List.not_mem_nil, or_false] at hb
    subst hb
    simp only [List.mem_map] at ha
    obtain ⟨q, hq, hfst⟩ := ha
    exact hno q hq hfst

lemma insertFile_cons_ne (k : Nat) (v : Finset Nat) (t : List (Nat × Finset Nat))
    (p : Nat) (s : Finset Nat) (hk : k ≠ p) :
    insertFile ((k, v) :: t) p s = (k, v) :: insertFile t p s := by
  by_cases h2 : (t.any (fun q => q.1 = p)) = true
  · simp [insertFile, List.any_cons, hk, h2]
  · simp [insertFile, List.any_cons, hk, h2]

lemma insertFile_cons_eq (v : Finset Nat) (t : List (Nat × Finset Nat))
    (p : Nat) (s : Finset Nat) (hno : ∀ q ∈ t, q.1 ≠ p) :
    insertFile ((p, v) :: t) p s = (p, s) :: t := by
  have : (((p, v) :: t).any (fun q => q.1 = p)) = true := by
    simp [List.any_cons]
  simp only [insertFile, this, if_true, List.map_cons, if_pos rfl]
  rw [map_replace_of_no_key t p s hno]

lemma refCount_le_length (l : List (Nat × Finset Nat)) (id : Nat) :
    refCount l id ≤ l.length := by
  simpa [refCount] using List.length_filter_le _ l

lemma mem_of_lookupFile (l : List (Nat × Finset Nat)) (p : Nat) (v : Finset Nat)
    (h : lookupFile l p = some v) : (p, v) ∈ l := by
  simp only [lookupFile, Option.map_eq_some'] at h
  obtain ⟨q, hq, rfl⟩ := h
  have hmem := List.mem_of_find?_eq_some hq
  have hpred := List.find?_some hq
  simp only [decide_eq_true_eq] at hpred
  rcases q with ⟨k, v⟩
  simp only at hpred
  subst hpred
  exact hmem

lemma one_le_refCount_of_mem_lookup (l : List (Nat × Finset Nat)) (p : Nat) (id : Nat)
    (h : id ∈ (lookupFile l p).getD ∅) : 1 ≤ refCount l id := by
  rcases hl : lookupFile l p with _ | v
  · rw [hl] at h; simp at h
  · rw [hl] at h
    simp only [Option.getD_some] at h
    have hmem := mem_of_lookupFile l p v hl
    have hf : (p, v) ∈ l.filter (fun q => id ∈ q.2) := by
      simp [List.mem_filter, hmem, h]
    have hpos := List.length_pos.mpr (List.ne_nil_of_mem hf)
    simpa [refCount] using hpos

lemma refCount_insertFile (l : List (Nat × Finset Nat)) (p : Nat) (s : Finset Nat)
    (id : Nat) (h : (l.map Prod.fst).Nodup) :
    refCount (insertFile l p s) id + (if id ∈ (lookupFile l p).getD ∅ then 1 else 0)
      = refCount l id + (if id ∈ s then 1 else 0) := by
  induction l with
  | nil =>
      have hif : insertFile [] p s = [(p, s)] := by simp [insertFile]
      rw [hif]
      have h0 : (lookupFile [] p).getD ∅ = (∅ : Finset Nat) := rfl
      rw [h0, refCount_cons]
      by_cases h2 : id ∈ s <;> simp [h2, refCount]
  | cons a t ih =>
      rcases a with ⟨k, v⟩
      have hnd_t : (t.map Prod.fst).Nodup := by
        simpa using (List.nodup_cons.mp (by simpa using h)).2
      by_cases hk : k = p
      · subst hk
        have hk_not : k ∉ t.map Prod.fst := by
          exact (List.nodup_cons.mp (by simpa using h)).1
        have hno : ∀ q ∈ t, q.1 ≠ k := by
          intro q hq hqk
          exact hk_not (hqk ▸ List.mem_map_of_mem Prod.fst hq)
        rw [insertFile_cons_eq v t k s hno, lookupFile_cons, if_pos rfl]
        simp only [Option.getD_some]
        rw [refCount_cons, refCount_cons]
        by_cases h1 : id ∈ v <;> by_cases h2 : id ∈ s <;> simp only [h1, h2, if_true, if_false] <;> omega
      · rw [insertFile_cons_ne k v t p s hk, lookupFile_cons, if_neg hk]
        rw [refCount_cons, refCount_cons]
        have hIH := ih hnd_t
        by_cases h1 : id ∈ v <;> simp only [h1, if_true, if_false] <;> omega

lemma u32sub1_exact (c : Nat) (h1 : 1 ≤ c) (h2 : c < u32mod) : u32sub1 c = c - 1 := by
  unfold u32sub1 u32mod at *
  omega

lemma u32add1_exact (c : Nat) (h : c + 1 < u32mod) : u32add1 c = c + 1 := by
  unfold u32add1 u32mod at *
  omega

lemma u32sub1_eq_zero_iff (c : Nat) (h : c < u32mod) : u32sub1 c = 0 ↔ c = 1 := by
  unfold u32sub1 u32mod at *
  omega

/-- Invariant preservation for one `update_class_maps_ids` call, as long
as strictly fewer than `2^32` files are tracked afterwards. -/
lemma dmInv_preserved (s : DMState) (path : Nat) (newIds : Finset Nat)
    (hinv : DMInv s)
    (hlen : (insertFile s.fileIds path newIds).length < u32mod) :
    DMInv (updateClassMapsIds path newIds s).1 := by
  obtain ⟨hnd, hcnt, hglob⟩ := hinv
  have hrc_bound : ∀ id, refCount s.fileIds id < u32mod := fun id =>
    lt_of_le_of_lt
      (le_trans (refCount_le_length _ _) (length_insertFile_monotone s.fileIds path newIds))
      hlen
  have hrc'_bound : ∀ id, refCount (insertFile s.fileIds path newIds) id < u32mod := fun id =>
    lt_of_le_of_lt (refCount_le_length _ _) hlen
  have hrc' : ∀ id,
      refCount (insertFile s.fileIds path newIds) id
        + (if id ∈ (lookupFile s.fileIds path).getD ∅ then 1 else 0)
      = refCount s.fileIds id + (if id ∈ newIds then 1 else 0) :=
    fun id => refCount_insertFile s.fileIds path newIds id hnd
  refine ⟨nodup_keys_insertFile _ _ _ hnd, ?_, ?_⟩
  · -- counts clause
    intro id
    show (match countsAfter s.idCounts
        ((lookupFile s.fileIds path).getD ∅ \ newIds)
        (newIds \ (lookupFile s.fileIds path).getD ∅) id with
      | some c => c = refCount (insertFile s.fileIds path newIds) id
      | none => refCount (insertFile s.fileIds path newIds) id = 0)
    have hcid := hcnt id
    have hb := hrc_bound id
    have hb' := hrc'_bound id
    have heq := hrc' id
    unfold countsAfter
    by_cases hRid : id ∈ (lookupFile s.fileIds path).getD ∅ \ newIds
    · have hmemold : id ∈ (lookupFile s.fileIds path).getD ∅ := (Finset.mem_sdiff.mp hRid).1
      have hmemnew : id ∉ newIds := (Finset.mem_sdiff.mp hRid).2
      have hge1 : 1 ≤ refCount s.fileIds id := one_le_refCount_of_mem_lookup _ _ _ hmemold
      rw [if_pos hRid]
      rcases hc : s.idCounts id with _ | c
      · rw [hc] at hcid; simp only at hcid; omega
      · rw [hc] at hcid; simp only at hcid
        simp only
        rw [u32sub1_exact c (by omega) (by omega)]
        simp only [hmemold, if_true, hmemnew, if_false] at heq
        omega
    · rw [if_neg hRid]
      by_cases hAid : id ∈ newIds \ (lookupFile s.fileIds path).getD ∅
      · have hmemnew : id ∈ newIds := (Finset.mem_sdiff.mp hAid).1
        have hmemold : id ∉ (lookupFile s.fileIds path).getD ∅ := (Finset.mem_sdiff.mp hAid).2
        rw [if_pos hAid]
        simp only [hmemold, if_false, hmemnew, if_true] at heq
        rcases hc : s.idCounts id with _ | c
        · rw [hc] at hcid; simp only at hcid
          simp only
          omega
        · rw [hc] at hcid; simp only at hcid
          simp only
          rw [u32add1_exact c (by omega)]
          omega
      · rw [if_neg hAid]
        have hiff : (id ∈ (lookupFile s.fileIds path).getD ∅) ↔ (id ∈ newIds) := by
          constructor
          · intro hin
            by_contra hnin
            exact hRid (Finset.mem_sdiff.mpr ⟨hin, hnin⟩)
          · intro hin
            by_contra hnin
            exact hAid (Finset.mem_sdiff.mpr ⟨hin, hnin⟩)
        have hsame : refCount (insertFile s.fileIds path newIds) id = refCount s.fileIds id := by
          by_cases hin : id ∈ (lookupFile s.fileIds path).getD ∅
          · have : id ∈ newIds := hiff.mp hin
            simp only [hin, if_true, this] at heq; omega
          · have : id ∉ newIds := fun hx => hin (hiff.mpr hx)
            simp only [hin, if_false, this, if_true] at heq; omega
        rcases hc : s.idCounts id with _ | c
        · rw [hc] at hcid; simp only at hcid
          simp only
          omega
        · rw [hc] at hcid; simp only at hcid
          simp only
          omega
  · -- global clause
    intro id
    show id ∈ (s.globalIds.filter (fun i =>
          i ∉ removedGlobalOf s.idCounts ((lookupFile s.fileIds path).getD ∅ \ newIds)))
        ∪ addedGlobalOf s.idCounts (newIds \ (lookupFile s.fileIds path).getD ∅)
      ↔ 0 < refCount (insertFile s.fileIds path newIds) id
    have hcid := hcnt id
    have hb := hrc_bound id
    have heq := hrc' id
    have hgid := hglob id
    rw [Finset.mem_union, Finset.mem_filter]
    by_cases hRid : id ∈ (lookupFile s.fileIds path).getD ∅ \ newIds
    · have hmemold : id ∈ (lookupFile s.fileIds path).getD ∅ := (Finset.mem_sdiff.mp hRid).1
      have hmemnew : id ∉ newIds := (Finset.mem_sdiff.mp hRid).2
      have hge1 : 1 ≤ refCount s.fileIds id := one_le_refCount_of_mem_lookup _ _ _ hmemold
      have hnotA : id ∉ addedGlobalOf s.idCounts (newIds \ (lookupFile s.fileIds path).getD ∅) := by
        intro hx
        exact hmemnew (Finset.mem_sdiff.mp (Finset.mem_filter.mp hx).1).1
      simp only [hmemold, if_true, hmemnew, if_false] at heq
      rcases hc : s.idCounts id with _ | c
      · rw [hc] at hcid; simp only at hcid; omega
      · rw [hc] at hcid; simp only at hcid
        have hmemR : id ∈ removedGlobalOf s.idCounts
            ((lookupFile s.fileIds path).getD ∅ \ newIds)
            ↔ u32sub1 c = 0 := by
          unfold removedGlobalOf
          rw [Finset.mem_filter]
          simp [hRid, hc]
        rw [u32sub1_eq_zero_iff c (by omega)] at hmemR
        by_cases hone : c = 1
        · have : ¬ (0 : Nat) < refCount (insertFile s.fileIds path newIds) id := by omega
          simp only [hmemR]
          constructor
          · rintro (⟨_, hno⟩ | hx)
            · exact absurd hone hno
            · exact absurd hx hnotA
          · intro hx; exact absurd hx this
        · have hpos : 0 < refCount (insertFile s.fileIds path newIds) id := by omega
          simp only [hmemR]
          constructor
          · intro _; exact hpos
          · intro _
            left
            exact ⟨hgid.mpr (by omega), hone⟩
    · by_cases hAid : id ∈ newIds \ (lookupFile s.fileIds path).getD ∅
      · have hmemnew : id ∈ newIds := (Finset.mem_sdiff.mp hAid).1
        have hmemold : id ∉ (lookupFile s.fileIds path).getD ∅ := (Finset.mem_sdiff.mp hAid).2
        simp only [hmemold, if_false, hmemnew, if_true] at heq
        have hnotR : id ∉ removedGlobalOf s.idCounts
            ((lookupFile s.fileIds path).getD ∅ \ newIds) := by
          intro hx
          exact hRid (Finset.mem_filter.mp hx).1
        have hmemA : id ∈ addedGlobalOf s.idCounts (newIds \ (lookupFile s.fileIds path).getD ∅)
            ↔ (match s.idCounts id with
               | some c => c = 0
               | none => True) := by
          unfold addedGlobalOf
          rw [Finset.mem_filter]
          rcases hc : s.idCounts id with _ | c <;> simp [hAid, hc]
        have hpos : 0 < refCount (insertFile s.fileIds path newIds) id := by
          rcases hc : s.idCounts id with _ | c
          · rw [hc] at hcid; simp only at hcid; omega
          · rw [hc] at hcid; simp only at hcid; omega
        constructor
        · intro _; exact hpos
        · intro _
          rcases hc : s.idCounts id with _ | c
          · right; rw [hmemA, hc]; trivial
          · rw [hc] at hcid; simp only at hcid
            by_cases hzero : c = 0
            · right; rw [hmemA, hc]; simpa using hzero
            · left
              exact ⟨hgid.mpr (by omega), hnotR⟩
      · have hiff : (id ∈ (lookupFile s.fileIds path).getD ∅) ↔ (id ∈ newIds) := by
          constructor
          · intro hin
            by_contra hnin
            exact hRid (Finset.mem_sdiff.mpr ⟨hin, hnin⟩)
          · intro hin
            by_contra hnin
            exact hAid (Finset.mem_sdiff.mpr ⟨hin, hnin⟩)
        have hsame : refCount (insertFile s.fileIds path newIds) id = refCount s.fileIds id := by
          by_cases hin : id ∈ (lookupFile s.fileIds path).getD ∅
          · have : id ∈ newIds := hiff.mp hin
            simp only [hin, if_true, this] at heq; omega
          · have : id ∉ newIds := fun hx => hin (hiff.mpr hx)
            simp only [hin, if_false, this, if_true] at heq; omega
        have hnotR : id ∉ removedGlobalOf s.idCounts
            ((lookupFile s.fileIds path).getD ∅ \ newIds) := by
          intro hx
          exact hRid (Finset.mem_filter.mp hx).1
        have hnotA : id ∉ addedGlobalOf s.idCounts (newIds \ (lookupFile s.fileIds path).getD ∅) := by
          intro hx
          exact hAid (Finset.mem_filter.mp hx).1
        rw [hsame]
        constructor
        · rintro (⟨hg, _⟩ | hx)
          · exact hgid.mp hg
          · exact absurd hx hnotA
        · intro hx
          left
          exact ⟨hgid.mpr hx, hnotR⟩

lemma length_insertFile_le (l : List (Nat × Finset Nat)) (p : Nat) (s : Finset Nat) :
    (insertFile l p s).length ≤ l.length + 1 := by
  unfold insertFile
  split <;> simp

lemma lookupFile_map_replace (l : List (Nat × Finset Nat)) (p : Nat) (v : Finset Nat)
    (p' : Nat) (hne : p' ≠ p) :
    lookupFile (l.map (fun q => if q.1 = p then (p, v) else q)) p' = lookupFile l p' := by
  induction l with
  | nil => rfl
  | cons a t ih =>
      rcases a with ⟨k, w⟩
      by_cases hk : k = p
      · subst hk
        simp only [List.map_cons, if_pos rfl]
        rw [lookupFile_cons, lookupFile_cons, if_neg (fun h => hne h.symm),
          if_neg (fun h => hne h.symm)]
        exact ih
      · simp only [List.map_cons, if_neg hk]
        rw [lookupFile_cons, lookupFile_cons]
        by_cases hk' : k = p'
        · rw [if_pos hk', if_pos hk']
        · rw [if_neg hk', if_neg hk']
          exact ih

lemma lookupFile_append_single (l : List (Nat × Finset Nat)) (p : Nat) (v : Finset Nat)
    (p' : Nat) (hne : p' ≠ p) :
    lookupFile (l ++ [(p, v)]) p' = lookupFile l p' := by
  induction l with
  | nil =>
      show lookupFile [(p, v)] p' = none
      rw [lookupFile_cons, if_neg (fun h => hne h.symm)]
      rfl
  | cons a t ih =>
      rcases a with ⟨k, w⟩
      rw [List.cons_append, lookupFile_cons, lookupFile_cons]
      by_cases hk' : k = p'
      · rw [if_pos hk', if_pos hk']
      · rw [if_neg hk', if_neg hk']
        exact ih

lemma lookupFile_insertFile_ne (l : List (Nat × Finset Nat)) (p : Nat) (v : Finset Nat)
    (p' : Nat) (hne : p' ≠ p) :
    lookupFile (insertFile l p v) p' = lookupFile l p' := by
  unfold insertFile
  split
  · exact lookupFile_map_replace l p v p' hne
  · exact lookupFile_append_single l p v p' hne

lemma sdiff_erase_of_mem (S : Finset Nat) (c : Nat) (hc : c ∈ S) :
    S \ S.erase c = {c} := by
  ext x
  simp only [Finset.mem_sdiff, Finset.mem_erase, Finset.mem_singleton, not_and]
  constructor
  · rintro ⟨hxS, hx⟩
    by_contra hxc
    exact (hx hxc) hxS
  · rintro rfl
    exact ⟨hc, fun h _ => absurd rfl h⟩

lemma erase_sdiff_self (S : Finset Nat) (c : Nat) : S.erase c \ S = ∅ :=
  Finset.sdiff_eq_empty_iff_subset.mpr (Finset.erase_subset _ _)

/-- Reachable states with fewer than `2^32` tracked files satisfy the
Data-Manager invariant. -/
lemma dmReachable_inv (s : DMState) (hr : DMReachable s) :
    s.fileIds.length < u32mod → DMInv s := by
  induction hr with
  | empty =>
      intro _
      refine ⟨by simp, ?_, ?_⟩
      · intro id
        show refCount [] id = 0
        rfl
      · intro id
        show id ∈ (∅ : Finset Nat) ↔ 0 < refCount [] id
        simp [refCount]
  | step path newIds hr ih =>
      rename_i s'
      intro hlen
      have hlen' : (insertFile s'.fileIds path newIds).length < u32mod := hlen
      have hlen_s : s'.fileIds.length < u32mod :=
        lt_of_le_of_lt (length_insertFile_monotone _ _ _) hlen'
      exact dmInv_preserved s' path newIds (ih hlen_s) hlen'

/-- **C10.** Starting from empty maps, after any sequence of
`update_class_maps_ids` calls (while fewer than `2^32` files are
tracked), the stored reference count of every class ID equals the number
of files whose stored set contains that ID; consequently every ID that a
further update would schedule for decrement has a count entry `≥ 1`, the
`u32` decrement is the exact decrement (no underflow/wrap), and
`update_class_maps_ids` never panics. -/
theorem dataManager_refcount_invariant (s : DMState) (hr : DMReachable s)
    (hlen : s.fileIds.length < u32mod) :
    (∀ id c, s.idCounts id = some c → c = refCount s.fileIds id) ∧
    (∀ id, s.idCounts id = none → refCount s.fileIds id = 0) ∧
    (∀ path newIds id, id ∈ (lookupFile s.fileIds path).getD ∅ \ newIds →
      ∃ c, s.idCounts id = some c ∧ 1 ≤ c ∧ u32sub1 c = c - 1) := by
  obtain ⟨hnd, hcnt, hglob⟩ := dmReachable_inv s hr hlen
  refine ⟨?_, ?_, ?_⟩
  · intro id c hc
    have hmatch := hcnt id
    rw [hc] at hmatch
    exact hmatch
  · intro id hc
    have hmatch := hcnt id
    rw [hc] at hmatch
    exact hmatch
  · intro path newIds id hid
    have hmem := (Finset.mem_sdiff.mp hid).1
    have hge1 := one_le_refCount_of_mem_lookup s.fileIds path id hmem
    have hb : refCount s.fileIds id < u32mod := lt_of_le_of_lt (refCount_le_length _ _) hlen
    have hmatch := hcnt id
    rcases hc : s.idCounts id with _ | c
    · rw [hc] at hmatch
      simp only at hmatch
      omega
    · rw [hc] at hmatch
      simp only at hmatch
      exact ⟨c, rfl, by omega, u32sub1_exact c (by omega) (by omega)⟩

/-- Witness for C10 at a concrete reachable state: two files both
containing ID 5; the stored count is 2, equal to the reference count,
and removing 5 from file 0's new set schedules a safe decrement. -/
theorem dataManager_refcount_invariant_witness :
    ((updateClassMapsIds 1 {5} (updateClassMapsIds 0 {5} ⟨[], fun _ => none, ∅⟩).1).1).idCounts 5
        = some 2 ∧
    refCount ((updateClassMapsIds 1 {5} (updateClassMapsIds 0 {5} ⟨[], fun _ => none, ∅⟩).1).1).fileIds 5
        = 2 := by
  have hr : DMReachable (updateClassMapsIds 1 {5} (updateClassMapsIds 0 {5} ⟨[], fun _ => none, ∅⟩).1).1 :=
    DMReachable.step 1 {5} (DMReachable.step 0 {5} DMReachable.empty)
  have hlen : ((updateClassMapsIds 1 {5} (updateClassMapsIds 0 {5} ⟨[], fun _ => none, ∅⟩).1).1).fileIds.length < u32mod := by
    decide
  have h := dataManager_refcount_invariant _ hr hlen
  have hc : ((updateClassMapsIds 1 {5} (updateClassMapsIds 0 {5} ⟨[], fun _ => none, ∅⟩).1).1).idCounts 5
      = some 2 := by decide
  exact ⟨hc, (h.1 5 2 hc).symm⟩

/-- **C1.** In an invariant state where files `f1 ≠ f2` both contribute
class `c` (and they are its only references: count 2), updating `f1`
with `c` removed keeps `c` in the global active set and does not report
it globally removed; the subsequent update removing `c` from `f2`
removes it from the global set and reports it globally removed — so it
is reported exactly once across the two updates. -/
theorem dataManager_two_file_refcount (s : DMState) (f1 f2 c : Nat)
    (S1 S2 : Finset Nat)
    (hinv : DMInv s) (hlen : s.fileIds.length + 1 < u32mod)
    (h1 : lookupFile s.fileIds f1 = some S1) (h2 : lookupFile s.fileIds f2 = some S2)
    (hne : f1 ≠ f2) (hc1 : c ∈ S1) (hc2 : c ∈ S2)
    (hrc : refCount s.fileIds c = 2) :
    (c ∈ (updateClassMapsIds f1 (S1.erase c) s).1.globalIds ∧
     c ∉ (updateClassMapsIds f1 (S1.erase c) s).2.removedGlobalIds) ∧
    (c ∉ (updateClassMapsIds f2 (S2.erase c)
            (updateClassMapsIds f1 (S1.erase c) s).1).1.globalIds ∧
     c ∈ (updateClassMapsIds f2 (S2.erase c)
            (updateClassMapsIds f1 (S1.erase c) s).1).2.removedGlobalIds) := by
  obtain ⟨hnd, hcnt, hglob⟩ := hinv
  -- the stored count of c is exactly 2
  have hcount2 : s.idCounts c = some 2 := by
    have hmatch := hcnt c
    rcases hcs : s.idCounts c with _ | k
    · rw [hcs] at hmatch; simp only at hmatch; omega
    · rw [hcs] at hmatch; simp only at hmatch
      rw [hmatch, hrc]
  have hold1 : (lookupFile s.fileIds f1).getD ∅ = S1 := by rw [h1]; rfl
  have hR1 : (lookupFile s.fileIds f1).getD ∅ \ S1.erase c = {c} := by
    rw [hold1]; exact sdiff_erase_of_mem S1 c hc1
  -- first update: c is decremented 2 → 1, not removed globally
  have hsub2 : u32sub1 2 = 1 := by unfold u32sub1 u32mod; omega
  have hnotR1 : c ∉ (updateClassMapsIds f1 (S1.erase c) s).2.removedGlobalIds := by
    show c ∉ removedGlobalOf s.idCounts ((lookupFile s.fileIds f1).getD ∅ \ S1.erase c)
    unfold removedGlobalOf
    rw [Finset.mem_filter]
    rintro ⟨_, hpred⟩
    rw [hcount2] at hpred
    simp only [hsub2] at hpred
    exact absurd hpred (by simp)
  have hmemG1 : c ∈ (updateClassMapsIds f1 (S1.erase c) s).1.globalIds := by
    show c ∈ (s.globalIds.filter (fun id => id ∉ removedGlobalOf s.idCounts
        ((lookupFile s.fileIds f1).getD ∅ \ S1.erase c)))
      ∪ addedGlobalOf s.idCounts (S1.erase c \ (lookupFile s.fileIds f1).getD ∅)
    rw [Finset.mem_union, Finset.mem_filter]
    left
    exact ⟨hglob c |>.mpr (by omega), hnotR1⟩
  refine ⟨⟨hmemG1, hnotR1⟩, ?_⟩
  -- the state after the first update
  have hlen1 : (insertFile s.fileIds f1 (S1.erase c)).length < u32mod :=
    lt_of_le_of_lt (length_insertFile_le _ _ _) hlen
  have hinv1 : DMInv (updateClassMapsIds f1 (S1.erase c) s).1 :=
    dmInv_preserved s f1 (S1.erase c) ⟨hnd, hcnt, hglob⟩ hlen1
  obtain ⟨hnd1, hcnt1, hglob1⟩ := hinv1
  -- f2's stored set is untouched by the first update
  have hlook2 : lookupFile (updateClassMapsIds f1 (S1.erase c) s).1.fileIds f2 = some S2 := by
    show lookupFile (insertFile s.fileIds f1 (S1.erase c)) f2 = some S2
    rw [lookupFile_insertFile_ne s.fileIds f1 (S1.erase c) f2 (fun h => hne h.symm)]
    exact h2
  have hold2 : (lookupFile (updateClassMapsIds f1 (S1.erase c) s).1.fileIds f2).getD ∅ = S2 := by
    rw [hlook2]; rfl
  -- the reference count of c dropped to exactly 1
  have hrc1 : refCount (updateClassMapsIds f1 (S1.erase c) s).1.fileIds c = 1 := by
    have heq := refCount_insertFile s.fileIds f1 (S1.erase c) c hnd
    rw [hold1] at heq
    have hec : c ∉ S1.erase c := Finset.not_mem_erase c S1
    rw [if_pos hc1, if_neg hec] at heq
    show refCount (insertFile s.fileIds f1 (S1.erase c)) c = 1
    omega
  have hcount1 : (updateClassMapsIds f1 (S1.erase c) s).1.idCounts c = some 1 := by
    have hmatch := hcnt1 c
    rcases hcs : (updateClassMapsIds f1 (S1.erase c) s).1.idCounts c with _ | k
    · rw [hcs] at hmatch; simp only at hmatch
      rw [hmatch] at hrc1; omega
    · rw [hcs] at hmatch; simp only at hmatch
      rw [hmatch, hrc1]
  have hR2 : (lookupFile (updateClassMapsIds f1 (S1.erase c) s).1.fileIds f2).getD ∅
      \ S2.erase c = {c} := by
    rw [hold2]; exact sdiff_erase_of_mem S2 c hc2
  have hsub1 : u32sub1 1 = 0 := by unfold u32sub1 u32mod; omega
  have hmemR2 : c ∈ (updateClassMapsIds f2 (S2.erase c)
      (updateClassMapsIds f1 (S1.erase c) s).1).2.removedGlobalIds := by
    show c ∈ removedGlobalOf (updateClassMapsIds f1 (S1.erase c) s).1.idCounts
        ((lookupFile (updateClassMapsIds f1 (S1.erase c) s).1.fileIds f2).getD ∅ \ S2.erase c)
    unfold removedGlobalOf
    rw [Finset.mem_filter, hR2]
    refine ⟨Finset.mem_singleton_self c, ?_⟩
    rw [hcount1]
    simp [hsub1]
  have hnotA2 : c ∉ addedGlobalOf (updateClassMapsIds f1 (S1.erase c) s).1.idCounts
      (S2.erase c \ (lookupFile (updateClassMapsIds f1 (S1.erase c) s).1.fileIds f2).getD ∅) := by
    unfold addedGlobalOf
    rw [Finset.mem_filter, hold2, erase_sdiff_self]
    rintro ⟨hmem, _⟩
    exact absurd hmem (Finset.not_mem_empty c)
  refine ⟨?_, hmemR2⟩
  show c ∉ ((updateClassMapsIds f1 (S1.erase c) s).1.globalIds.filter (fun id =>
      id ∉ removedGlobalOf (updateClassMapsIds f1 (S1.erase c) s).1.idCounts
        ((lookupFile (updateClassMapsIds f1 (S1.erase c) s).1.fileIds f2).getD ∅ \ S2.erase c)))
    ∪ addedGlobalOf (updateClassMapsIds f1 (S1.erase c) s).1.idCounts
        (S2.erase c \ (lookupFile (updateClassMapsIds f1 (S1.erase c) s).1.fileIds f2).getD ∅)
  rw [Finset.mem_union, Finset.mem_filter]
  rintro (⟨_, hnot⟩ | hmem)
  · exact hnot hmemR2
  · exact hnotA2 hmem

/-- Witness for C1: the concrete state with files 0 and 1 both holding
class 5, built by two updates from empty maps. -/
theorem dataManager_two_file_refcount_witness :
    (5 ∈ (updateClassMapsIds 0 (({5} : Finset Nat).erase 5)
        (updateClassMapsIds 1 {5} (updateClassMapsIds 0 {5} ⟨[], fun _ => none, ∅⟩).1).1).1.globalIds ∧
     5 ∉ (updateClassMapsIds 0 (({5} : Finset Nat).erase 5)
        (updateClassMapsIds 1 {5} (updateClassMapsIds 0 {5} ⟨[], fun _ => none, ∅⟩).1).1).2.removedGlobalIds) ∧
    (5 ∉ (updateClassMapsIds 1 (({5} : Finset Nat).erase 5)
        (updateClassMapsIds 0 (({5} : Finset Nat).erase 5)
          (updateClassMapsIds 1 {5} (updateClassMapsIds 0 {5} ⟨[], fun _ => none, ∅⟩).1).1).1).1.globalIds ∧
     5 ∈ (updateClassMapsIds 1 (({5} : Finset Nat).erase 5)
        (updateClassMapsIds 0 (({5} : Finset Nat).erase 5)
          (updateClassMapsIds 1 {5} (updateClassMapsIds 0 {5} ⟨[], fun _ => none, ∅⟩).1).1).1).2.removedGlobalIds) := by
  have hr : DMReachable (updateClassMapsIds 1 {5} (updateClassMapsIds 0 {5} ⟨[], fun _ => none, ∅⟩).1).1 :=
    DMReachable.step 1 {5} (DMReachable.step 0 {5} DMReachable.empty)
  have hinv := dmReachable_inv _ hr (by decide)
  exact dataManager_two_file_refcount _ 0 1 5 {5} {5} hinv (by decide)
    (by decide) (by decide) (by decide) (by decide) (by decide) (by decide)

/-! ### Composite-registry lemmas -/

lemma lookupAssoc_cons {α : Type} (k' : String) (v' : α) (t : List (String × α)) (k : String) :
    lookupAssoc ((k', v') :: t) k = if k' = k then some v' else lookupAssoc t k := by
  by_cases h : k' = k <;> simp [lookupAssoc, List.find?_cons, h]

lemma insertAssoc_cons_ne {α : Type} (a : String × α) (t : List (String × α))
    (k : String) (v : α) (ha : a.1 ≠ k) :
    insertAssoc (a :: t) k v = a :: insertAssoc t k v := by
  by_cases h2 : (t.any (fun q => q.1 = k)) = true
  · simp [insertAssoc, List.any_cons, ha, h2]
  · simp [insertAssoc, List.any_cons, ha, h2]

lemma lookupAssoc_insertAssoc_self {α : Type} (l : List (String × α)) (k : String) (v : α) :
    lookupAssoc (insertAssoc l k v) k = some v := by
  induction l with
  | nil =>
      show lookupAssoc [(k, v)] k = some v
      rw [lookupAssoc_cons, if_pos rfl]
  | cons a t ih =>
      by_cases ha : a.1 = k
      · have hany : ((a :: t).any (fun q => q.1 = k)) = true := by
          simp [List.any_cons, ha]
        simp only [insertAssoc, hany, if_true, List.map_cons, if_pos ha]
        rw [lookupAssoc_cons, if_pos rfl]
      · rw [insertAssoc_cons_ne a t k v ha]
        rcases a with ⟨k', v'⟩
        rw [lookupAssoc_cons, if_neg ha]
        exact ih

lemma lookupAssoc_insertAssoc_ne {α : Type} (l : List (String × α)) (k : String) (v : α)
    (k' : String) (hne : k' ≠ k) :
    lookupAssoc (insertAssoc l k v) k' = lookupAssoc l k' := by
  induction l with
  | nil =>
      show lookupAssoc [(k, v)] k' = none
      rw [lookupAssoc_cons, if_neg (fun h => hne h.symm)]
      rfl
  | cons a t ih =>
      by_cases ha : a.1 = k
      · have hany : ((a :: t).any (fun q => q.1 = k)) = true := by
          simp [List.any_cons, ha]
        simp only [insertAssoc, hany, if_true, List.map_cons, if_pos ha]
        rcases a with ⟨k0, v0⟩
        simp only at ha
        subst ha
        rw [lookupAssoc_cons, lookupAssoc_cons, if_neg (fun h => hne h.symm),
          if_neg (fun h => hne h.symm)]
        have hmap : (t.map (fun q => if q.1 = k0 then (k0, v) else q)) =
            insertAssoc t k0 v ∨ t ++ [(k0, v)] = insertAssoc t k0 v := by
          unfold insertAssoc
          by_cases h2 : (t.any (fun q => q.1 = k0)) = true
          · left; rw [if_pos h2]
          · right; rw [if_neg h2]
        by_cases h2 : (t.any (fun q => q.1 = k0)) = true
        · rw [show (t.map (fun q => if q.1 = k0 then (k0, v) else q)) = insertAssoc t k0 v by
            unfold insertAssoc; rw [if_pos h2]]
          exact ih
        · -- no further key k0 in t: the map is the identity on t
          have hid : (t.map (fun q => if q.1 = k0 then (k0, v) else q)) = t := by
            conv_rhs => rw [← List.map_id t]
            apply List.map_congr_left
            intro q hq
            have hqne : ¬ (q.1 = k0) := by
              intro hqk
              exact h2 (by simp only [List.any_eq_true]; exact ⟨q, hq, by simp [hqk]⟩)
            simp [if_neg hqne]
          rw [hid]
      · rw [insertAssoc_cons_ne a t k v ha]
        rcases a with ⟨k0, v0⟩
        rw [lookupAssoc_cons, lookupAssoc_cons]
        by_cases hk0 : k0 = k'
        · rw [if_pos hk0, if_pos hk0]
        · rw [if_neg hk0, if_neg hk0]
          exact ih

/-- **C3 (amended).** Two composites with the same canonicalized content
get the same synthetic name, and re-registering leaves the registry
unchanged after the first call (one entry per content).  Entries are
never removed; an entry under any name other than the dx-class name of
the newly registered content is never touched, and the raw-keyed path
(`register_grouping_raw`) never overwrites.  (The original claim's
unconditional "never mutated" fails when two different contents share
the first 8 hex digits of their 64-bit hash — see the counterexample.) -/
theorem composite_dedup_idempotent (c1 c2 : Composite) (reg : Registry)
    (hcanon : canonicalView c1 = canonicalView c2) :
    ((getOrCreateFull c2 (getOrCreateFull c1 reg).2).1 = (getOrCreateFull c1 reg).1 ∧
     (getOrCreateFull c2 (getOrCreateFull c1 reg).2).2 = (getOrCreateFull c1 reg).2) ∧
    (∀ name, name ≠ "dx-class-" ++ (hash_composite c1).take 8 →
      compositesGet name (getOrCreateFull c1 reg).2 = compositesGet name reg) ∧
    (∀ raw c k v, lookupAssoc reg.data k = some v →
      lookupAssoc (registerGroupingRaw raw c reg).2.data k = some v) := by
  have hhash : hash_composite c1 = hash_composite c2 := by
    unfold hash_composite
    rw [hcanon]
  refine ⟨?_, ?_, ?_⟩
  · unfold getOrCreateFull
    rw [← hhash]
    rcases hl : lookupAssoc reg.map (hash_composite c1) with _ | existing
    · simp [hl, lookupAssoc_insertAssoc_self]
    · simp [hl]
  · intro name hname
    unfold getOrCreateFull compositesGet
    rcases hl : lookupAssoc reg.map (hash_composite c1) with _ | existing
    · simp only [hl]
      exact lookupAssoc_insertAssoc_ne reg.data _ c1 name hname
    · simp only [hl]
  · intro raw c k v hkv
    unfold registerGroupingRaw
    rcases hl : lookupAssoc reg.data raw with _ | existing
    · simp only [hl]
      by_cases hk : k = raw
      · subst hk
        rw [hl] at hkv
        exact absurd hkv (by simp)
      · rw [lookupAssoc_insertAssoc_ne reg.data raw c k hk]
        exact hkv
    · simp only [hl]
      exact hkv

/-- Witness for C3's amended theorem: registering the one-token
composite `["flex"]` twice returns the same name and the same registry. -/
theorem composite_dedup_idempotent_witness :
    (getOrCreateFull ⟨["flex"], [], [], [], [], [], []⟩
        (getOrCreateFull ⟨["flex"], [], [], [], [], [], []⟩ Registry.empty).2).1
      = (getOrCreateFull ⟨["flex"], [], [], [], [], [], []⟩ Registry.empty).1 :=
  (composite_dedup_idempotent ⟨["flex"], [], [], [], [], [], []⟩
    ⟨["flex"], [], [], [], [], [], []⟩ Registry.empty rfl).1.1

set_option maxRecDepth 4000 in
/-- **C3 counterexample.** The single-token composites `["w4818"]` and
`["w37935"]` have different content hashes whose hex strings share their
first 8 digits, so both are assigned `dx-class-33731ff4`;
registering the second overwrites the first's `data` entry — the
registry entry is mutated, refuting "entries are never mutated". -/
theorem composite_registry_overwrite_cx :
    hash_composite ⟨["w4818"], [], [], [], [], [], []⟩
        ≠ hash_composite ⟨["w37935"], [], [], [], [], [], []⟩ ∧
    (getOrCreateFull ⟨["w4818"], [], [], [], [], [], []⟩ Registry.empty).1 = "dx-class-33731ff4" ∧
    (getOrCreateFull ⟨["w37935"], [], [], [], [], [], []⟩
        (getOrCreateFull ⟨["w4818"], [], [], [], [], [], []⟩ Registry.empty).2).1
      = "dx-class-33731ff4" ∧
    compositesGet "dx-class-33731ff4"
        (getOrCreateFull ⟨["w4818"], [], [], [], [], [], []⟩ Registry.empty).2
      = some ⟨["w4818"], [], [], [], [], [], []⟩ ∧
    compositesGet "dx-class-33731ff4"
        (getOrCreateFull ⟨["w37935"], [], [], [], [], [], []⟩
          (getOrCreateFull ⟨["w4818"], [], [], [], [], [], []⟩ Registry.empty).2).2
      = some ⟨["w37935"], [], [], [], [], [], []⟩ ∧
    (⟨["w4818"], [], [], [], [], [], []⟩ : Composite)
      ≠ ⟨["w37935"], [], [], [], [], [], []⟩ := by
  refine ⟨by decide, by decide, by decide, by decide, by decide, by decide⟩

/-! ### C2: micro-patch vs full regeneration -/

/-- Concrete two-class engine for the patch scenarios: static rules for
`btn` and `btn-lg`. -/
def eBtn : StyleEngine := ⟨[("btn", "color: red"), ("btn-lg", "color: blue")], [], [], [], [], []⟩

/-- Interner view for the patch scenarios: ID 0 ↦ `btn`, ID 1 ↦ `btn-lg`. -/
def internBtn : Nat → String := fun id => if id = 0 then "btn" else if id = 1 then "btn-lg" else ""

/-- **C2 (amended).** The fall-back sentence holds in general: whenever
the delta is non-empty but the patch mutated nothing (`changed` stayed
false), `patch_css_file` reports failure so full regeneration runs.
And the patch path can agree with full regeneration — on the concrete
add-only delta `btn → btn, btn-lg` the patched output has exactly the
rule blocks of the full regeneration.  (The general equivalence claim
fails: see the counterexample, where removing a class whose `.name` is
a textual prefix of another selector deletes that block too.) -/
theorem patch_noop_reports_failure (e : StyleEngine) (reg : Registry)
    (interner : Nat → String) (content : String) (oldIds newIds : List Nat)
    (hdelta : ¬(newIds.filter (fun id => !oldIds.contains id)).isEmpty
        ∨ ¬(oldIds.filter (fun id => !newIds.contains id)).isEmpty)
    (hnochange : (patchCore e reg interner content
        (oldIds.filter (fun id => !newIds.contains id))
        (newIds.filter (fun id => !oldIds.contains id))).2 = false) :
    patchCssFile e reg interner content oldIds newIds = none ∧
    (patchCssFile eBtn Registry.empty internBtn
        (fullRegenDev eBtn Registry.empty internBtn [0]) [0] [0, 1] ≠ none ∧
      cssSemEquiv ((patchCssFile eBtn Registry.empty internBtn
          (fullRegenDev eBtn Registry.empty internBtn [0]) [0] [0, 1]).getD "")
        (fullRegenDev eBtn Registry.empty internBtn [0, 1])) := by
  constructor
  · have h1 : ((newIds.filter (fun id => !oldIds.contains id)).isEmpty
        && (oldIds.filter (fun id => !newIds.contains id)).isEmpty) = false := by
      rcases hdelta with h | h
      · rcases hx : (newIds.filter (fun id => !oldIds.contains id)).isEmpty with _ | _
        · simp [hx]
        · exact absurd hx h
      · rcases hx : (oldIds.filter (fun id => !newIds.contains id)).isEmpty with _ | _
        · simp [hx]
        · exact absurd hx h
    have hlen : 0 < (newIds.filter (fun id => !oldIds.contains id)).length
        + (oldIds.filter (fun id => !newIds.contains id)).length := by
      rcases hdelta with h | h
      · have hz : ¬(newIds.filter (fun id => !oldIds.contains id)).length = 0 := by
          intro hx
          exact h (List.isEmpty_iff_length_eq_zero.mpr hx)
        omega
      · have hz : ¬(oldIds.filter (fun id => !newIds.contains id)).length = 0 := by
          intro hx
          exact h (List.isEmpty_iff_length_eq_zero.mpr hx)
        omega
    simp only [patchCssFile]
    rw [h1]
    simp only [Bool.false_eq_true, if_false]
    split
    · rfl
    · have hcond : (!(patchCore e reg interner content
          (oldIds.filter (fun id => !newIds.contains id))
          (newIds.filter (fun id => !oldIds.contains id))).2
          && decide (0 < (newIds.filter (fun id => !oldIds.contains id)).length
            + (oldIds.filter (fun id => !newIds.contains id)).length)) = true := by
        rw [hnochange]
        simp only [Bool.not_false, Bool.true_and]
        exact decide_eq_true hlen
      rw [if_pos hcond]
  · exact ⟨by decide, by unfold cssSemEquiv; decide⟩

/-- Witness for C2's amended theorem: removing a class whose rule is not
in the output text changes nothing, and the patch reports failure. -/
theorem patch_noop_reports_failure_witness :
    patchCssFile eBtn Registry.empty internBtn "x" [0] [] = none :=
  (patch_noop_reports_failure eBtn Registry.empty internBtn "x" [0] []
    (Or.inr (by decide)) (by decide)).1

/-- **C2 counterexample.** Starting set `btn, btn-lg` (full
regeneration output on disk), delta = remove `btn` (|D| = 1 ≤ 32): the
needle `.btn` also matches the prefix of `.btn-lg`, so the patch deletes
both blocks and reports success with an empty stylesheet, while full
regeneration from the updated set still contains the `.btn-lg` block —
the two outputs are not semantically equivalent. -/
theorem patch_full_regen_inequiv_cx :
    (([0, 1] : List Nat).filter (fun id => !([1] : List Nat).contains id)
        = [0] ∧
     (([1] : List Nat).filter (fun id => !([0, 1] : List Nat).contains id)).length
        + (([0, 1] : List Nat).filter (fun id => !([1] : List Nat).contains id)).length
        ≤ 32) ∧
    patchCssFile eBtn Registry.empty internBtn
        (fullRegenDev eBtn Registry.empty internBtn [0, 1]) [0, 1] [1] = some "" ∧
    fullRegenDev eBtn Registry.empty internBtn [1] = ".btn-lg \x7b\n  color: blue;\n\x7d\n" ∧
    ¬ cssSemEquiv "" (fullRegenDev eBtn Registry.empty internBtn [1]) := by
  refine ⟨⟨by decide, by decide⟩, by decide, by decide, ?_⟩
  unfold cssSemEquiv
  decide

/-! ### C5, C6, C7: the resolution chain -/

/-- **C5.** The declaration body of a token is resolved by a
first-match-wins chain in exactly the order: (1) composite registry on
the full token, (2) static table on the variant-stripped base,
(3) color utility, (4) animation stub only when the token has no
internal space, (5) dynamic/scale utility, (6) composite registry on
the base token; an earlier matching stage always wins, and
`compute_css` resolves every non-companion token through this chain. -/
theorem resolution_chain_order (e : StyleEngine) (reg : Registry)
    (className baseClass : String) :
    (∀ v, expandComposite e reg className = some v →
      coreCssRaw e reg className baseClass = some v) ∧
    (expandComposite e reg className = none →
      ∀ v, lookupAssoc e.precompiled baseClass = some v →
        coreCssRaw e reg className baseClass = some v) ∧
    (expandComposite e reg className = none →
      lookupAssoc e.precompiled baseClass = none →
      ∀ v, generateColorCss e baseClass = some v →
        coreCssRaw e reg className baseClass = some v) ∧
    (expandComposite e reg className = none →
      lookupAssoc e.precompiled baseClass = none →
      generateColorCss e baseClass = none →
      ∀ v, (if sContains className " " then none else generateAnimationCss className) = some v →
        coreCssRaw e reg className baseClass = some v) ∧
    (expandComposite e reg className = none →
      lookupAssoc e.precompiled baseClass = none →
      generateColorCss e baseClass = none →
      (if sContains className " " then none else generateAnimationCss className) = none →
      ∀ v, generateDynamicCss e baseClass = some v →
        coreCssRaw e reg className baseClass = some v) ∧
    (expandComposite e reg className = none →
      lookupAssoc e.precompiled baseClass = none →
      generateColorCss e baseClass = none →
      (if sContains className " " then none else generateAnimationCss className) = none →
      generateDynamicCss e baseClass = none →
      coreCssRaw e reg className baseClass = expandComposite e reg baseClass) := by
  refine ⟨?_, ?_, ?_, ?_, ?_, ?_⟩
  · intro v h
    unfold coreCssRaw
    rw [h]
  · intro h1 v h
    unfold coreCssRaw
    rw [h1, h]
  · intro h1 h2 v h
    unfold coreCssRaw
    rw [h1, h2, h]
  · intro h1 h2 h3 v h
    unfold coreCssRaw
    rw [h1, h2, h3, h]
  · intro h1 h2 h3 h4 v h
    unfold coreCssRaw
    rw [h1, h2, h3, h4, h]
  · intro h1 h2 h3 h4 h5
    unfold coreCssRaw
    rw [h1, h2, h3, h4, h5]

/-- Witness for C5: with an empty registry and static table, the color
stage (3) resolves `bg-red-500`, all earlier stages failing. -/
theorem resolution_chain_order_witness :
    coreCssRaw ⟨[], [], [], [], [("red-500", "#ef4444")], []⟩ Registry.empty
      "bg-red-500" "bg-red-500" = some "background-color: #ef4444" :=
  (resolution_chain_order ⟨[], [], [], [], [("red-500", "#ef4444")], []⟩
    Registry.empty "bg-red-500" "bg-red-500").2.2.1
    (by decide) (by decide) "background-color: #ef4444" (by decide)

/-- **C6.** For a scale generator `(prefix p, property padding,
multiplier 0.25, unit rem)` — `0.25` being the exact `f32` value `1/4` —
token `p-4` yields `padding: 1rem`, and the negative form `p--4` yields
`padding: -1rem`. -/
theorem scale_generator_arithmetic :
    generateDynamicCss ⟨[], [], [], [], [], [⟨"p", "padding", ⟨1, 4⟩, "rem"⟩]⟩
        "p-4" = some "padding: 1rem" ∧
    generateDynamicCss ⟨[], [], [], [], [], [⟨"p", "padding", ⟨1, 4⟩, "rem"⟩]⟩
        "p--4" = some "padding: -1rem" := by
  exact ⟨by decide, by decide⟩

lemma listStartsWith_append (pat pre post : List Char)
    (h : listStartsWith pre pat = true) :
    listStartsWith (pre ++ post) pat = true := by
  induction pat generalizing pre with
  | nil => simp [listStartsWith]
  | cons b bs ih =>
      cases pre with
      | nil => simp [listStartsWith] at h
      | cons a as =>
          rw [List.cons_append]
          simp only [listStartsWith, Bool.and_eq_true] at h ⊢
          exact ⟨h.1, ih as h.2⟩

lemma strEnds_append (a b p : String) (h : sEnds b p = true) :
    sEnds (a ++ b) p = true := by
  unfold sEnds at *
  rw [String.data_append, List.reverse_append]
  exact listStartsWith_append p.data.reverse b.data.reverse a.data.reverse h

lemma wrapMediaQueries_single (body mq : String) :
    wrapMediaQueries body [mq] =
      mq ++ " \x7b\n" ++ mqIndent body ++ "\x7d\n" := by
  show (if sEnds (mq ++ " \x7b\n" ++ mqIndent body ++ "\x7d\n") "\n" = true then
      mq ++ " \x7b\n" ++ mqIndent body ++ "\x7d\n"
    else mq ++ " \x7b\n" ++ mqIndent body ++ "\x7d\n" ++ "\n")
    = mq ++ " \x7b\n" ++ mqIndent body ++ "\x7d\n"
  rw [if_pos (strEnds_append _ "\x7d\n" "\n" (by decide))]

set_option maxRecDepth 4000 in
/-- C7: with breakpoint `md` mapped to an arbitrary width `w` and state
`hover` mapped to `:hover`, resolving `md:hover:bg-red-500` yields exactly
the selector `.md\:hover\:bg-red-500:hover` with its declaration block
wrapped in `@media (min-width: w)`. -/
theorem variant_nesting_media_wrapped (w : String) :
    computeCssFromRawAndEscaped
      ⟨[], [("md", w)], [("hover", ":hover")], [], [("red-500", "#ef4444")], []⟩
      Registry.empty "md:hover:bg-red-500" (serializeIdentifier "md:hover:bg-red-500")
    = some ("@media (min-width: " ++ w
        ++ ") \x7b\n  .md\\:hover\\:bg-red-500:hover \x7b\n    background-color: #ef4444;\n  \x7d\n\x7d\n") := by
  have h1 : computeCssFromRawAndEscaped
      ⟨[], [("md", w)], [("hover", ":hover")], [], [("red-500", "#ef4444")], []⟩
      Registry.empty "md:hover:bg-red-500" (serializeIdentifier "md:hover:bg-red-500")
    = some (wrapMediaQueries
        ".md\\:hover\\:bg-red-500:hover \x7b\n  background-color: #ef4444;\n\x7d\n"
        ["@media (min-width: " ++ w ++ ")"]) := rfl
  rw [h1, wrapMediaQueries_single]
  have h2 : mqIndent ".md\\:hover\\:bg-red-500:hover \x7b\n  background-color: #ef4444;\n\x7d\n"
    = "  .md\\:hover\\:bg-red-500:hover \x7b\n    background-color: #ef4444;\n  \x7d\n" := rfl
  rw [h2]
  simp only [String.append_assoc]
  rfl

set_option maxRecDepth 4000 in
/-- Closed instance of the variant-nesting theorem at width `768px`. -/
theorem variant_nesting_media_wrapped_witness :
    computeCssFromRawAndEscaped
      ⟨[], [("md", "768px")], [("hover", ":hover")], [], [("red-500", "#ef4444")], []⟩
      Registry.empty "md:hover:bg-red-500" (serializeIdentifier "md:hover:bg-red-500")
    = some "@media (min-width: 768px) \x7b\n  .md\\:hover\\:bg-red-500:hover \x7b\n    background-color: #ef4444;\n  \x7d\n\x7d\n" := by
  rw [variant_nesting_media_wrapped "768px"]
  rfl

set_option maxRecDepth 8000 in
/-- C4: batch resolution of `animate:500ms:100ms` with companions
`from(opacity-0)` / `to(opacity-100)` produces exactly one output string —
a single keyframes block with a 0% stage `opacity: 0` and a 100% stage
`opacity: 1` plus the `animation: 500ms 100ms dx-animation-<hash>`
declaration on the base selector — and no standalone rule for the
companion tokens; moreover single-token resolution of any token starting
with `from(`, `to(` or `via(` returns none. -/
theorem batch_animation_assembly (e : StyleEngine) (reg : Registry) (token : String)
    (h : (sStarts token "from(" || sStarts token "to(" || sStarts token "via(") = true) :
    generateCssForClassesBatch ⟨[], [], [], [], [], []⟩ Registry.empty
      ["animate:500ms:100ms", "from(opacity-0)", "to(opacity-100)"]
    = ["@keyframes dx-animation-713b3641297e7b70 \x7b\n  0% \x7b opacity: 0; \x7d\n  100% \x7b opacity: 1; \x7d\n\x7d\n\n.animate\\:500ms\\:100ms \x7b\n  animation: 500ms 100ms dx-animation-713b3641297e7b70;\n\x7d"]
    ∧ computeCss e reg token = none := by
  refine ⟨rfl, ?_⟩
  unfold computeCss
  rw [h]
  simp

set_option maxRecDepth 8000 in
/-- Witness for the batch-animation theorem at token `from(x)`. -/
theorem batch_animation_assembly_witness :
    (sStarts "from(x)" "from(" || sStarts "from(x)" "to(" || sStarts "from(x)" "via(") = true
    ∧ (generateCssForClassesBatch ⟨[], [], [], [], [], []⟩ Registry.empty
        ["animate:500ms:100ms", "from(opacity-0)", "to(opacity-100)"]
      = ["@keyframes dx-animation-713b3641297e7b70 \x7b\n  0% \x7b opacity: 0; \x7d\n  100% \x7b opacity: 1; \x7d\n\x7d\n\n.animate\\:500ms\\:100ms \x7b\n  animation: 500ms 100ms dx-animation-713b3641297e7b70;\n\x7d"]
      ∧ computeCss ⟨[], [], [], [], [], []⟩ Registry.empty "from(x)" = none) :=
  ⟨by decide, batch_animation_assembly ⟨[], [], [], [], [], []⟩ Registry.empty "from(x)" (by decide)⟩

set_option maxRecDepth 8000 in
/-- C8 (amended): the `<hash>` in `dx-animation-<hash>` is the seahash of
the base selector, not of the keyframe content — for any engine and any
selector, an animation with no keyframe content (`forwards` with no
stages, or a bare `animate` with no companions) emits nothing, and the
same base class with different stage contents keeps the same
`dx-animation` name. -/
theorem animation_name_selector_hashed (e : StyleEngine) (sel : String) :
    decodeEncodedCss e "ANIM|fill|forwards" sel [] = ""
    ∧ decodeEncodedCss e "ANIM|animate|1s|0s" sel [] = ""
    ∧ generateCssForClassesBatch ⟨[], [], [], [], [], []⟩ Registry.empty
        ["animate:1s", "from(opacity-0)", "to(opacity-100)"]
      = ["@keyframes dx-animation-3ca706a340e08c85 \x7b\n  0% \x7b opacity: 0; \x7d\n  100% \x7b opacity: 1; \x7d\n\x7d\n\n.animate\\:1s \x7b\n  animation: 1s dx-animation-3ca706a340e08c85;\n\x7d"]
    ∧ generateCssForClassesBatch ⟨[], [], [], [], [], []⟩ Registry.empty
        ["animate:1s", "from(opacity-100)", "to(opacity-0)"]
      = ["@keyframes dx-animation-3ca706a340e08c85 \x7b\n  0% \x7b opacity: 1; \x7d\n  100% \x7b opacity: 0; \x7d\n\x7d\n\n.animate\\:1s \x7b\n  animation: 1s dx-animation-3ca706a340e08c85;\n\x7d"] :=
  ⟨rfl, rfl, rfl, rfl⟩

set_option maxRecDepth 8000 in
/-- Closed instance of the selector-hashed-name theorem. -/
theorem animation_name_selector_hashed_witness :
    decodeEncodedCss ⟨[], [], [], [], [], []⟩ "ANIM|fill|forwards" ".x" [] = ""
    ∧ decodeEncodedCss ⟨[], [], [], [], [], []⟩ "ANIM|animate|1s|0s" ".x" [] = ""
    ∧ generateCssForClassesBatch ⟨[], [], [], [], [], []⟩ Registry.empty
        ["animate:1s", "from(opacity-0)", "to(opacity-100)"]
      = ["@keyframes dx-animation-3ca706a340e08c85 \x7b\n  0% \x7b opacity: 0; \x7d\n  100% \x7b opacity: 1; \x7d\n\x7d\n\n.animate\\:1s \x7b\n  animation: 1s dx-animation-3ca706a340e08c85;\n\x7d"]
    ∧ generateCssForClassesBatch ⟨[], [], [], [], [], []⟩ Registry.empty
        ["animate:1s", "from(opacity-100)", "to(opacity-0)"]
      = ["@keyframes dx-animation-3ca706a340e08c85 \x7b\n  0% \x7b opacity: 1; \x7d\n  100% \x7b opacity: 0; \x7d\n\x7d\n\n.animate\\:1s \x7b\n  animation: 1s dx-animation-3ca706a340e08c85;\n\x7d"] :=
  animation_name_selector_hashed ⟨[], [], [], [], [], []⟩ ".x"

set_option maxRecDepth 8000 in
/-- Counterexample to content-hashed keyframe names: `animate:1s:0s` and
`animate:1s` with identical companions produce the exact same non-empty
keyframe body but different `dx-animation-<hash>` names (the hash follows
the selector, which differs). -/
theorem keyframes_content_hash_cx :
    ∃ kfBody : String,
      generateCssForClassesBatch ⟨[], [], [], [], [], []⟩ Registry.empty
          ["animate:1s:0s", "from(opacity-0)", "to(opacity-100)"]
        = ["@keyframes dx-animation-9749a200d6ce1f69 \x7b\n" ++ kfBody
            ++ "\x7d\n\n.animate\\:1s\\:0s \x7b\n  animation: 1s dx-animation-9749a200d6ce1f69;\n\x7d"]
      ∧ generateCssForClassesBatch ⟨[], [], [], [], [], []⟩ Registry.empty
          ["animate:1s", "from(opacity-0)", "to(opacity-100)"]
        = ["@keyframes dx-animation-3ca706a340e08c85 \x7b\n" ++ kfBody
            ++ "\x7d\n\n.animate\\:1s \x7b\n  animation: 1s dx-animation-3ca706a340e08c85;\n\x7d"]
      ∧ kfBody ≠ ""
      ∧ ("dx-animation-9749a200d6ce1f69" : String) ≠ "dx-animation-3ca706a340e08c85" :=
  ⟨"  0% \x7b opacity: 0; \x7d\n  100% \x7b opacity: 1; \x7d\n", rfl, rfl, by decide, by decide⟩

set_option maxRecDepth 8000 in
/-- C9 (amended): paren-group finalization in `expand_grouping` always
registers the pending composite under its trimmed raw source slice; a
trailing composite with animation fragments is likewise raw-registered,
while one without animations is not registered at all — its base tokens
spill directly into the output; the hash-keyed `dx-class-<hash8>` path is
taken only by the `$name(…)` / `+name(…)` / `-name(…)` recomposition
branches. -/
theorem grouping_registration_paths :
    (expandGrouping [] Registry.empty "animate:1s from(opacity-0) to(opacity-100)").out
      = ["animate:1s from(opacity-0) to(opacity-100)"]
    ∧ lookupAssoc (expandGrouping [] Registry.empty
        "animate:1s from(opacity-0) to(opacity-100)").reg.data
        "animate:1s from(opacity-0) to(opacity-100)"
      = some ⟨["animate:1s"], [], [], [], [], [],
          ["from|opacity-0", "to|opacity-100"]⟩
    ∧ (expandGrouping [] Registry.empty "bg-red-500 p-4").out = ["bg-red-500", "p-4"]
    ∧ (expandGrouping [] Registry.empty "bg-red-500 p-4").reg.data = []
    ∧ (expandGrouping [] Registry.empty "bg-red-500 p-4").reg.map = []
    ∧ (expandGrouping [] Registry.empty "$card(bg-red-500 p-4)").out = ["dx-class-b95888d7"]
    ∧ lookupAssoc (expandGrouping [] Registry.empty "$card(bg-red-500 p-4)").reg.data
        "dx-class-b95888d7" = some ⟨["bg-red-500", "p-4"], [], [], [], [], [], []⟩ :=
  ⟨rfl, rfl, rfl, rfl, rfl, rfl, rfl⟩

set_option maxRecDepth 8000 in
/-- Counterexample to hash-keyed registration of animation-less
composites: finalizing `hover(bg-red-500)` leaves a composite with an
empty animations list registered under the raw slice itself — no
`dx-class-` name is created and the hash map stays empty. -/
theorem grouping_empty_animation_raw_cx :
    (expandGrouping [] Registry.empty "hover(bg-red-500)").out = ["hover(bg-red-500)"]
    ∧ (expandGrouping [] Registry.empty "hover(bg-red-500)").reg.data
        = [("hover(bg-red-500)", ⟨[], [], [("hover", ["bg-red-500"])], [], [], [], []⟩)]
    ∧ (expandGrouping [] Registry.empty "hover(bg-red-500)").reg.map = []
    ∧ (⟨[], [], [("hover", ["bg-red-500"])], [], [], [], []⟩ : Composite).animations = []
    ∧ sStarts "hover(bg-red-500)" "dx-class-" = false :=
  ⟨rfl, rfl, rfl, rfl, rfl⟩
